import Mathlib

/-!
# sqlx-migrate: the migrator of `migrate.go`

A shallow embedding of `New`, `Migrate`, `Rollback`, `createMigrationTable`,
`runMigration` and `runRollback`, together with a model of the database handle
they talk to.

The database is an external collaborator, so it is modelled explicitly:

* the committed contents are a `Store`: the rows of table `migrations` (or `none`
  while the table does not exist) and the rest of the database, of an arbitrary
  type `U`;
* a transaction works on a private copy of the store, which replaces the committed
  store on `Commit` and is dropped on `Rollback`;
* every call on the handle may fail: the handle carries a fault oracle `fail`,
  asked once per call (numbered by `clock`), so that a theorem quantifying over
  all handles covers every pattern of database failures;
* the handle keeps a `trace` of the calls made on it.  The trace, the clock and
  the position `idx` written into trace events are ghost state: no function of
  the program reads them.

A capability (`Migration.Migrate`, `Migration.Rollback`) is a function on the `U`
part of the transaction's copy: it may change anything but table `migrations`,
and it can neither commit nor roll back the transaction it is handed.
`Migration.Migrate` is always present; calling an absent one is a run-time panic
of the source and is outside this model.

Ids are stored as they are given (the bound of the column `VARCHAR(63)` is not
modelled; an engine that refuses a long id is a failing `INSERT`, which the
oracle covers).  The `log.Printf` lines of the source are left out.
-/

namespace migrate

/-! ## Errors -/

/-- Go `error` values, as far as the program tells them apart. -/
inductive Err where
  /-- The sentinel `sql.ErrNoRows`. -/
  | ErrNoRows : Err
  /-- Any other error, with its message. -/
  | other (text : String) : Err
  /-- The value of `fmt.Errorf(context + ": %w", cause)`. -/
  | wrap (context : String) (cause : Err) : Err
deriving DecidableEq, Repr

/-! ## Trace of the calls made on the database handle -/

/-- The kinds of call made for one migration. -/
inductive Call where
  /-- The lookup `db.Get(&found, "SELECT id FROM migrations WHERE id=?", id)`. -/
  | Get : Call
  /-- The call `db.Beginx()`. -/
  | Beginx : Call
  /-- The statement `tx.Exec("INSERT INTO migrations (id) VALUES (?)", id)`. -/
  | Insert : Call
  /-- The statement `tx.Exec("DELETE FROM migrations WHERE id=?", id)`. -/
  | Delete : Call
  /-- The call `migration.Migrate(tx)` of the forward capability. -/
  | Migrate : Call
  /-- The call `migration.Rollback(tx)` of the backward capability. -/
  | Rollback : Call
  /-- The call `tx.Commit()`. -/
  | Commit : Call
  /-- The call `tx.Rollback()`, whose result the program ignores. -/
  | TxRollback : Call
deriving DecidableEq, Repr

/-- One entry of the trace: the call and the error it returned (`none` for `nil`). -/
inductive Event where
  /-- The statement `CREATE TABLE IF NOT EXISTS migrations (...)`. -/
  | bootstrap (err : Option Err) : Event
  /-- A call made for the migration at position `idx` of the registry, whose id is `id`. -/
  | call (idx : Nat) (id : String) (kind : Call) (err : Option Err) : Event
deriving DecidableEq, Repr

/-- The registry position an event belongs to, if any. -/
def Event.idx? : Event → Option Nat
  | Event.bootstrap _ => none
  | Event.call i _ _ _ => some i

/-- The registry position whose forward capability the event is a call of, if it is one. -/
def Event.forward? : Event → Option Nat
  | Event.call i _ Call.Migrate _ => some i
  | _ => none

/-- The registry position whose backward capability the event is a call of, if it is one. -/
def Event.backward? : Event → Option Nat
  | Event.call i _ Call.Rollback _ => some i
  | _ => none

/-! ## The database -/

/-- Committed contents of the database. -/
structure Store (U : Type) where
  /-- Rows of table `migrations` (column `id`); `none` while the table does not exist. -/
  migrations : Option (List String)
  /-- Everything else in the database. -/
  user : U

/-- The tracking records of a store. -/
def Store.rows {U : Type} (s : Store U) : List String :=
  match s.migrations with
  | none => []
  | some rows => rows

/-- The database handle `*sqlx.DB`. -/
structure DB (U : Type) where
  /-- Value of `db.DriverName()`. -/
  driverName : String
  /-- Committed contents. -/
  store : Store U
  /-- Number of calls made so far on the handle. -/
  clock : Nat
  /-- Fault oracle: `fail n = some msg` makes call number `n` fail with `msg`. -/
  fail : Nat → Option String
  /-- Calls made so far, oldest first. -/
  trace : List Event

/-- An open transaction `*sqlx.Tx`: a private copy of the store. -/
structure Tx (U : Type) where
  /-- The copy the transaction reads and writes. -/
  view : Store U

variable {U : Type}

/-- A tracking record for `id` exists in the committed store. -/
def DB.tracked (db : DB U) (id : String) : Prop := id ∈ db.store.rows

instance (db : DB U) (id : String) : Decidable (db.tracked id) := by
  unfold DB.tracked; exact inferInstance

/-- The failure the oracle prescribes for the next call, if any. -/
def DB.fault (db : DB U) : Option Err :=
  match db.fail db.clock with
  | none => none
  | some msg => some (Err.other msg)

/-- Account for one call on the handle. -/
def DB.record (db : DB U) (ev : Event) : DB U :=
  { db with clock := db.clock + 1, trace := db.trace ++ [ev] }

/-- Write down the call of a capability (not a call on the handle itself). -/
def DB.note (db : DB U) (ev : Event) : DB U :=
  { db with trace := db.trace ++ [ev] }

/-- The events a run added to the trace. -/
def DB.since (after before : DB U) : List Event :=
  after.trace.drop before.trace.length

/-- The statement `db.Exec("CREATE TABLE IF NOT EXISTS migrations (id VARCHAR(63) PRIMARY KEY )")`. -/
def DB.ExecCreateTable (db : DB U) : DB U × Option Err :=
  match db.fault with
  | some err => (db.record (Event.bootstrap (some err)), some err)
  | none =>
    match db.store.migrations with
    | some _ => (db.record (Event.bootstrap none), none)
    | none =>
      ({ db with store := { db.store with migrations := some [] } }.record (Event.bootstrap none), none)

/-- The lookup `db.Get(&found, "SELECT id FROM migrations WHERE id=?", id)`:
`nil` when a row is found, `sql.ErrNoRows` when none is, another error otherwise. -/
def DB.Get (db : DB U) (i : Nat) (id : String) : DB U × Option Err :=
  let err : Option Err :=
    match db.fault with
    | some err => some err
    | none =>
      match db.store.migrations with
      | none => some (Err.other "no such table: migrations")
      | some rows => if id ∈ rows then none else some Err.ErrNoRows
  (db.record (Event.call i id Call.Get err), err)

/-- The call `db.Beginx()`. -/
def DB.Beginx (db : DB U) (i : Nat) (id : String) : DB U × Except Err (Tx U) :=
  match db.fault with
  | some err => (db.record (Event.call i id Call.Beginx (some err)), Except.error err)
  | none => (db.record (Event.call i id Call.Beginx none), Except.ok { view := db.store })

/-- The statement `tx.Exec("INSERT INTO migrations (id) VALUES (?)", id)`; `id` is the
primary key, so a second row with the same id is refused. -/
def Tx.ExecInsert (tx : Tx U) (db : DB U) (i : Nat) (id : String) : DB U × Except Err (Tx U) :=
  let res : Except Err (Tx U) :=
    match db.fault with
    | some err => Except.error err
    | none =>
      match tx.view.migrations with
      | none => Except.error (Err.other "no such table: migrations")
      | some rows =>
        if id ∈ rows then Except.error (Err.other "UNIQUE constraint failed: migrations.id")
        else Except.ok { view := { tx.view with migrations := some (rows ++ [id]) } }
  match res with
  | Except.error err => (db.record (Event.call i id Call.Insert (some err)), Except.error err)
  | Except.ok tx => (db.record (Event.call i id Call.Insert none), Except.ok tx)

/-- The statement `tx.Exec("DELETE FROM migrations WHERE id=?", id)`. -/
def Tx.ExecDelete (tx : Tx U) (db : DB U) (i : Nat) (id : String) : DB U × Except Err (Tx U) :=
  let res : Except Err (Tx U) :=
    match db.fault with
    | some err => Except.error err
    | none =>
      match tx.view.migrations with
      | none => Except.error (Err.other "no such table: migrations")
      | some rows =>
        Except.ok { view := { tx.view with migrations := some (rows.filter (fun r => r ≠ id)) } }
  match res with
  | Except.error err => (db.record (Event.call i id Call.Delete (some err)), Except.error err)
  | Except.ok tx => (db.record (Event.call i id Call.Delete none), Except.ok tx)

/-- The call of a capability with the transaction handle: `f(tx)`. -/
def Tx.invoke (tx : Tx U) (db : DB U) (i : Nat) (id : String) (kind : Call)
    (f : U → Except Err U) : DB U × Except Err (Tx U) :=
  match f tx.view.user with
  | Except.error err => (db.note (Event.call i id kind (some err)), Except.error err)
  | Except.ok u =>
    (db.note (Event.call i id kind none), Except.ok { view := { tx.view with user := u } })

/-- The call `tx.Commit()`: the transaction's copy becomes the committed store. -/
def Tx.Commit (tx : Tx U) (db : DB U) (i : Nat) (id : String) : DB U × Option Err :=
  match db.fault with
  | some err => (db.record (Event.call i id Call.Commit (some err)), some err)
  | none => ({ db with store := tx.view }.record (Event.call i id Call.Commit none), none)

/-- The call `tx.Rollback()`: the transaction's copy is dropped, whatever the call returns. -/
def Tx.Rollback (_tx : Tx U) (db : DB U) (i : Nat) (id : String) : DB U :=
  db.record (Event.call i id Call.TxRollback db.fault)

/-! ## The program -/

/-- The allow-list `supportedDrivers`, a Go map from driver name to `bool`. -/
def supportedDrivers : List (String × Bool) :=
  [("sqlite3", true), ("mysql", true)]

/-- The struct `Migration`. -/
structure Migration (U : Type) where
  /-- Field `ID`. -/
  ID : String
  /-- Field `Name`. -/
  Name : String
  /-- Field `Migrate`, the forward capability. -/
  Migrate : U → Except Err U
  /-- Field `Rollback`, the backward capability; `none` for `nil`. -/
  Rollback : Option (U → Except Err U)

/-- The struct `SqlxMigrate`. -/
structure SqlxMigrate (U : Type) where
  /-- Field `db`. -/
  db : DB U
  /-- Field `migrations`. -/
  migrations : List (Migration U)

/-- The function `New`. -/
def New (db : DB U) (migrations : List (Migration U)) : Except Err (SqlxMigrate U) :=
  match supportedDrivers.lookup db.driverName with
  | none => Except.error (Err.other ("Unsupported driver name: " ++ db.driverName))
  | some _ => Except.ok { db := db, migrations := migrations }

/-- The method `createMigrationTable`. -/
def createMigrationTable (db : DB U) : DB U × Option Err :=
  match db.ExecCreateTable with
  | (db, some err) => (db, some (Err.wrap "creating migrations table" err))
  | (db, none) => (db, none)

/-- The method `runMigration`; `i` is the position of `migration` in the registry. -/
def runMigration (db : DB U) (i : Nat) (migration : Migration U) : DB U × Option Err :=
  let errorf := fun (err : Err) => Err.wrap "running migration" err
  match db.Beginx i migration.ID with
  | (db, Except.error err) => (db, some (errorf err))
  | (db, Except.ok tx) =>
    match tx.ExecInsert db i migration.ID with
    | (db, Except.error err) => (tx.Rollback db i migration.ID, some (errorf err))
    | (db, Except.ok tx) =>
      match tx.invoke db i migration.ID Call.Migrate migration.Migrate with
      | (db, Except.error err) => (tx.Rollback db i migration.ID, some (errorf err))
      | (db, Except.ok tx) =>
        match tx.Commit db i migration.ID with
        | (db, some err) => (db, some (errorf err))
        | (db, none) => (db, none)

/-- The method `runRollback`, called only with a migration whose `Rollback` is `rollback`. -/
def runRollback (db : DB U) (i : Nat) (migration : Migration U)
    (rollback : U → Except Err U) : DB U × Option Err :=
  let errorf := fun (err : Err) => Err.wrap "running rollback" err
  match db.Beginx i migration.ID with
  | (db, Except.error err) => (db, some (errorf err))
  | (db, Except.ok tx) =>
    match tx.ExecDelete db i migration.ID with
    | (db, Except.error err) => (tx.Rollback db i migration.ID, some (errorf err))
    | (db, Except.ok tx) =>
      match tx.invoke db i migration.ID Call.Rollback rollback with
      | (db, Except.error err) => (tx.Rollback db i migration.ID, some (errorf err))
      | (db, Except.ok tx) =>
        match tx.Commit db i migration.ID with
        | (db, some err) => (db, some (errorf err))
        | (db, none) => (db, none)

/-- The loop of `Migrate` over the registry positions still to visit. -/
def migrateLoop : List (Nat × Migration U) → DB U → DB U × Option Err
  | [], db => (db, none)
  | (i, migration) :: rest, db =>
    match db.Get i migration.ID with
    | (db, some Err.ErrNoRows) =>
      match runMigration db i migration with
      | (db, some err) => (db, some err)
      | (db, none) => migrateLoop rest db
    | (db, none) => migrateLoop rest db
    | (db, some err) => (db, some (Err.wrap "looking up migration by id" err))

/-- The loop of `Rollback` over the registry positions still to visit. -/
def rollbackLoop : List (Nat × Migration U) → DB U → DB U × Option Err
  | [], db => (db, none)
  | (i, migration) :: rest, db =>
    match migration.Rollback with
    | none => rollbackLoop rest db
    | some rollback =>
      match db.Get i migration.ID with
      | (db, some Err.ErrNoRows) => rollbackLoop rest db
      | (db, none) =>
        match runRollback db i migration rollback with
        | (db, some err) => (db, some err)
        | (db, none) => rollbackLoop rest db
      | (db, some err) => (db, some (Err.wrap "looking up rollback by id" err))

/-- The method `Migrate`: the handle after the call and the error returned. -/
def Migrate (m : SqlxMigrate U) : SqlxMigrate U × Option Err :=
  match createMigrationTable m.db with
  | (db, some err) => ({ m with db := db }, some err)
  | (db, none) =>
    match migrateLoop m.migrations.enum db with
    | (db, err) => ({ m with db := db }, err)

/-- The method `Rollback`: the handle after the call and the error returned. -/
def Rollback (m : SqlxMigrate U) : SqlxMigrate U × Option Err :=
  match createMigrationTable m.db with
  | (db, some err) => ({ m with db := db }, some err)
  | (db, none) =>
    match rollbackLoop m.migrations.enum.reverse db with
    | (db, err) => ({ m with db := db }, err)

/-- The calls of a forward transaction that went through, for position `i` with id `id`. -/
def txForward (i : Nat) (id : String) : List Event :=
  [Event.call i id Call.Beginx none, Event.call i id Call.Insert none,
    Event.call i id Call.Migrate none, Event.call i id Call.Commit none]

/-- The calls of a backward transaction that went through, for position `i` with id `id`. -/
def txBackward (i : Nat) (id : String) : List Event :=
  [Event.call i id Call.Beginx none, Event.call i id Call.Delete none,
    Event.call i id Call.Rollback none, Event.call i id Call.Commit none]

/-! ## What single steps do

The outcomes of one lookup and of one transaction, as relations between the handle before
and after; they are derived from the code below. -/

/-- The handle after a run: same oracle and driver, a longer trace, a later clock. -/
structure Later (db db2 : DB U) : Prop where
  trace : ∃ evs, db2.trace = db.trace ++ evs
  fail : db2.fail = db.fail
  driverName : db2.driverName = db.driverName
  clock : db.clock ≤ db2.clock

/-- What one lookup that returned `r` did. -/
structure Looked (db db1 : DB U) (i : Nat) (id : String) (r : Option Err) : Prop where
  eq : db1 = db.record (Event.call i id Call.Get r)
  found : r = none → db.tracked id
  missing : r = some Err.ErrNoRows → ¬ db.tracked id ∧ ∃ rows, db.store.migrations = some rows
  healthy : db.fail db.clock = none → (∃ rows, db.store.migrations = some rows) →
    r = if db.tracked id then none else some Err.ErrNoRows

/-- What a call of `runMigration` that returned `nil` did. -/
structure Applied (db db2 : DB U) (i : Nat) (m : Migration U) : Prop where
  rows : ∃ rows u, db.store.migrations = some rows ∧ m.ID ∉ rows ∧
    m.Migrate db.store.user = Except.ok u ∧
    db2.store = { migrations := some (rows ++ [m.ID]), user := u }
  trace : db2.trace = db.trace ++ [Event.call i m.ID Call.Beginx none,
    Event.call i m.ID Call.Insert none, Event.call i m.ID Call.Migrate none,
    Event.call i m.ID Call.Commit none]
  fail : db2.fail = db.fail
  clock : db2.clock = db.clock + 3
  driverName : db2.driverName = db.driverName

/-- What a call of `runMigration` that returned the error `err` did. -/
structure Refused (db db2 : DB U) (i : Nat) (m : Migration U) (err : Err) : Prop where
  store : db2.store = db.store
  fail : db2.fail = db.fail
  driverName : db2.driverName = db.driverName
  clock : db.clock ≤ db2.clock
  trace : ∃ e, err = Err.wrap "running migration" e ∧
    ((db2.trace = db.trace ++ [Event.call i m.ID Call.Beginx (some e)]) ∨
     (∃ f, db2.trace = db.trace ++ [Event.call i m.ID Call.Beginx none,
        Event.call i m.ID Call.Insert (some e), Event.call i m.ID Call.TxRollback f]) ∨
     (∃ f, m.Migrate db.store.user = Except.error e ∧
        db2.trace = db.trace ++ [Event.call i m.ID Call.Beginx none,
        Event.call i m.ID Call.Insert none, Event.call i m.ID Call.Migrate (some e),
        Event.call i m.ID Call.TxRollback f]) ∨
     (db2.trace = db.trace ++ [Event.call i m.ID Call.Beginx none,
        Event.call i m.ID Call.Insert none, Event.call i m.ID Call.Migrate none,
        Event.call i m.ID Call.Commit (some e)]))

/-- What a call of `runRollback` that returned `nil` did. -/
structure Reverted (db db2 : DB U) (i : Nat) (m : Migration U) (rollback : U → Except Err U) :
    Prop where
  rows : ∃ rows u, db.store.migrations = some rows ∧
    rollback db.store.user = Except.ok u ∧
    db2.store = { migrations := some (rows.filter (fun r => r ≠ m.ID)), user := u }
  trace : db2.trace = db.trace ++ [Event.call i m.ID Call.Beginx none,
    Event.call i m.ID Call.Delete none, Event.call i m.ID Call.Rollback none,
    Event.call i m.ID Call.Commit none]
  fail : db2.fail = db.fail
  clock : db2.clock = db.clock + 3
  driverName : db2.driverName = db.driverName

/-- What a call of `runRollback` that returned the error `err` did. -/
structure Kept (db db2 : DB U) (i : Nat) (m : Migration U) (rollback : U → Except Err U)
    (err : Err) : Prop where
  store : db2.store = db.store
  fail : db2.fail = db.fail
  driverName : db2.driverName = db.driverName
  clock : db.clock ≤ db2.clock
  trace : ∃ e, err = Err.wrap "running rollback" e ∧
    ((db2.trace = db.trace ++ [Event.call i m.ID Call.Beginx (some e)]) ∨
     (∃ f, db2.trace = db.trace ++ [Event.call i m.ID Call.Beginx none,
        Event.call i m.ID Call.Delete (some e), Event.call i m.ID Call.TxRollback f]) ∨
     (∃ f, rollback db.store.user = Except.error e ∧
        db2.trace = db.trace ++ [Event.call i m.ID Call.Beginx none,
        Event.call i m.ID Call.Delete none, Event.call i m.ID Call.Rollback (some e),
        Event.call i m.ID Call.TxRollback f]) ∨
     (db2.trace = db.trace ++ [Event.call i m.ID Call.Beginx none,
        Event.call i m.ID Call.Delete none, Event.call i m.ID Call.Rollback none,
        Event.call i m.ID Call.Commit (some e)]))

/-- What a call of `createMigrationTable` that returned `nil` did. -/
structure Booted (db db0 : DB U) : Prop where
  table : ∃ rows, db0.store.migrations = some rows
  rows : db0.store.rows = db.store.rows
  user : db0.store.user = db.store.user
  same : (∃ rows, db.store.migrations = some rows) → db0.store = db.store
  trace : db0.trace = db.trace ++ [Event.bootstrap none]
  fail : db0.fail = db.fail
  driverName : db0.driverName = db.driverName
  clock : db0.clock = db.clock + 1
  nofault : db.fail db.clock = none

/-- What a call of `createMigrationTable` that returned the error `err` did. -/
structure Unbooted (db db0 : DB U) (err : Err) : Prop where
  store : db0.store = db.store
  trace : ∃ e, err = Err.wrap "creating migrations table" e ∧
    db0.trace = db.trace ++ [Event.bootstrap (some e)]
  fail : db0.fail = db.fail
  driverName : db0.driverName = db.driverName
  clock : db0.clock = db.clock + 1
  fault : db.fail db.clock ≠ none

/-! ## Concrete registries and handles -/

/-- The forward step `migrateFunc1` of the tests: create table `courses`. -/
def migrateFunc1 : List String → Except Err (List String) :=
  fun tables =>
    if "courses" ∈ tables then Except.error (Err.other "table courses already exists")
    else Except.ok ("courses" :: tables)

/-- The backward step `rollbackFunc1` of the tests: drop table `courses`. -/
def rollbackFunc1 : List String → Except Err (List String) :=
  fun tables =>
    if "courses" ∈ tables then Except.ok (tables.filter (fun t => t ≠ "courses"))
    else Except.error (Err.other "no such table: courses")

/-- The forward step `migrateFunc2` of the tests: create table `users`. -/
def migrateFunc2 : List String → Except Err (List String) :=
  fun tables =>
    if "users" ∈ tables then Except.error (Err.other "table users already exists")
    else Except.ok ("users" :: tables)

/-- The backward step `rollbackFunc2` of the tests: drop table `users`. -/
def rollbackFunc2 : List String → Except Err (List String) :=
  fun tables =>
    if "users" ∈ tables then Except.ok (tables.filter (fun t => t ≠ "users"))
    else Except.error (Err.other "no such table: users")

/-- A step that always fails. -/
def brokenFunc : List String → Except Err (List String) :=
  fun _ => Except.error (Err.other "syntax error")

/-- A handle that never fails, on a database with tracking records `rows` (no tracking
table yet when `rows` is `none`) and tables `tables`. -/
def sqliteWith (rows : Option (List String)) (tables : List String) : DB (List String) :=
  { driverName := "sqlite3", store := { migrations := rows, user := tables },
    clock := 0, fail := fun _ => none, trace := [] }

/-- The handle `sqliteInMem` of the tests: an empty in-memory database that never fails. -/
def sqliteInMem : DB (List String) := sqliteWith none []

/-- An empty in-memory database whose call number `k` fails. -/
def sqliteFailingAt (k : Nat) : DB (List String) :=
  { sqliteInMem with fail := fun n => if n = k then some "database is closed" else none }

/-- Migration `1` of the tests, `001_create_courses`, with its rollback. -/
def createCourses : Migration (List String) :=
  { ID := "1", Name := "001_create_courses", Migrate := migrateFunc1,
    Rollback := some rollbackFunc1 }

/-- Migration `1` of the tests, `001_create_courses`, with `Rollback: nil`. -/
def createCoursesForGood : Migration (List String) :=
  { ID := "1", Name := "001_create_courses", Migrate := migrateFunc1, Rollback := none }

/-- Migration `2` of the tests, `002_create_users`, with `Rollback: nil`. -/
def createUsers : Migration (List String) :=
  { ID := "2", Name := "002_create_users", Migrate := migrateFunc2, Rollback := none }

/-- A migration `1` whose forward step fails. -/
def brokenForward : Migration (List String) :=
  { ID := "1", Name := "001_broken", Migrate := brokenFunc, Rollback := none }

/-- A migration `1` whose backward step fails. -/
def brokenBackward : Migration (List String) :=
  { ID := "1", Name := "001_create_courses", Migrate := migrateFunc1,
    Rollback := some brokenFunc }

/-- The migrator of the test `rollback`: `[createCourses]` on an empty database. -/
def rollbackTest : SqlxMigrate (List String) :=
  { db := sqliteInMem, migrations := [createCourses] }

/-- The second migrator of the test `existing migrations`: `1` is applied and tracked, the
registry is `[1, 2]`. -/
def existingMigrations : SqlxMigrate (List String) :=
  { db := sqliteWith (some ["1"]) ["courses"],
    migrations := [createCoursesForGood, createUsers] }

/-- The registry of the test `existing migrations` with both migrations applied. -/
def bothApplied : SqlxMigrate (List String) :=
  { db := sqliteWith (some ["1", "2"]) ["users", "courses"],
    migrations := [createCoursesForGood, createUsers] }

/-- A registry whose only forward step fails, on an empty database. -/
def brokenForwardSetup : SqlxMigrate (List String) :=
  { db := sqliteInMem, migrations := [brokenForward] }

/-- A registry whose only backward step fails, with its migration applied. -/
def brokenBackwardSetup : SqlxMigrate (List String) :=
  { db := sqliteWith (some ["1"]) ["courses"], migrations := [brokenBackward] }

/-- The migrator of the test `rollback` on a database that refuses the first call. -/
def closedSetup : SqlxMigrate (List String) :=
  { db := sqliteFailingAt 0, migrations := [createCourses] }

/-- The migrator of the test `rollback` on a database that refuses call number `6`, the
lookup of a second `Migrate`. -/
def flakySetup : SqlxMigrate (List String) :=
  { db := sqliteFailingAt 6, migrations := [createCourses] }

/-- Two migrations under id `1`, only the second with a backward step; `1` is tracked. -/
def sharedIdSetup : SqlxMigrate (List String) :=
  { db := sqliteWith (some ["1"]) ["courses"],
    migrations := [createCoursesForGood, createCourses] }

/-- A registry `[1, 2]` whose first forward step fails, on a database where `2` is tracked. -/
def laterTrackedSetup : SqlxMigrate (List String) :=
  { db := sqliteWith (some ["2"]) ["users"], migrations := [brokenForward, createUsers] }

/-- The registry of the test `existing migrations` with migration `1` registered a second
time after migration `2`, on an empty database. -/
def duplicateSetup : SqlxMigrate (List String) :=
  { db := sqliteInMem, migrations := [createCoursesForGood, createUsers, createCoursesForGood] }

/-! ## Single steps -/

@[simp] theorem DB.record_store (db : DB U) (ev : Event) : (db.record ev).store = db.store := rfl

@[simp] theorem DB.record_fail (db : DB U) (ev : Event) : (db.record ev).fail = db.fail := rfl

@[simp] theorem DB.record_driverName (db : DB U) (ev : Event) :
    (db.record ev).driverName = db.driverName := rfl

@[simp] theorem DB.record_clock (db : DB U) (ev : Event) :
    (db.record ev).clock = db.clock + 1 := rfl

@[simp] theorem DB.record_trace (db : DB U) (ev : Event) :
    (db.record ev).trace = db.trace ++ [ev] := rfl

theorem DB.since_eq {db db2 : DB U} {evs : List Event} (h : db2.trace = db.trace ++ evs) :
    db2.since db = evs := by
  simp [DB.since, h]

theorem DB.since_step {db db2 db3 : DB U} {evs : List Event} (h : db2.trace = db.trace ++ evs)
    (h3 : ∃ evs2, db3.trace = db2.trace ++ evs2) : db3.since db = evs ++ db3.since db2 := by
  obtain ⟨evs2, h3⟩ := h3
  rw [DB.since_eq h3, DB.since_eq (by rw [h3, h, List.append_assoc])]

theorem Later.refl (db : DB U) : Later db db := ⟨⟨[], by simp⟩, rfl, rfl, le_refl _⟩

theorem Later.trans {a b c : DB U} (h1 : Later a b) (h2 : Later b c) : Later a c := by
  obtain ⟨⟨e1, t1⟩, f1, d1, c1⟩ := h1
  obtain ⟨⟨e2, t2⟩, f2, d2, c2⟩ := h2
  exact ⟨⟨e1 ++ e2, by rw [t2, t1, List.append_assoc]⟩, f2.trans f1, d2.trans d1, c1.trans c2⟩

theorem DB.Get_inv {db db1 : DB U} {i : Nat} {id : String} {r : Option Err}
    (h : db.Get i id = (db1, r)) : Looked db db1 i id r := by
  cases h0 : db.fail db.clock <;> cases hm : db.store.migrations <;>
    simp only [DB.Get, DB.fault, h0, hm, Prod.mk.injEq] at h <;>
    (try split_ifs at h with hin) <;>
    obtain ⟨h, rfl⟩ := h <;> subst h <;>
    refine ⟨rfl, ?_, ?_, ?_⟩ <;> simp [DB.tracked, Store.rows, *]

theorem runMigration_ok {db db2 : DB U} {i : Nat} {m : Migration U}
    (h : runMigration db i m = (db2, none)) : Applied db db2 i m := by
  cases h0 : db.fail db.clock <;> cases h1 : db.fail (db.clock + 1) <;>
    cases h2 : db.fail (db.clock + 1 + 1) <;> cases hm : db.store.migrations <;>
    cases hu : m.Migrate db.store.user <;>
    simp only [runMigration, DB.Beginx, Tx.ExecInsert, Tx.invoke, Tx.Commit, Tx.Rollback,
      DB.fault, DB.record, DB.note, h0, h1, h2, hm, hu] at h <;>
    (try split_ifs at h with hin) <;>
    simp only [hu, h2, Prod.mk.injEq, reduceCtorEq, and_false] at h
  obtain ⟨h, -⟩ := h
  subst h
  exact ⟨⟨_, _, hm, hin, hu, rfl⟩, by simp, rfl, rfl, rfl⟩

theorem runMigration_err {db db2 : DB U} {i : Nat} {m : Migration U} {err : Err}
    (h : runMigration db i m = (db2, some err)) : Refused db db2 i m err := by
  cases h0 : db.fail db.clock <;> cases h1 : db.fail (db.clock + 1) <;>
    cases h2 : db.fail (db.clock + 1 + 1) <;> cases hm : db.store.migrations <;>
    cases hu : m.Migrate db.store.user <;>
    simp only [runMigration, DB.Beginx, Tx.ExecInsert, Tx.invoke, Tx.Commit, Tx.Rollback,
      DB.fault, DB.record, DB.note, h0, h1, h2, hm, hu] at h <;>
    (try split_ifs at h with hin) <;>
    simp only [hu, h2, Prod.mk.injEq, reduceCtorEq, and_false, Option.some.injEq] at h <;>
    obtain ⟨h, rfl⟩ := h <;> subst h <;>
    refine ⟨rfl, rfl, rfl, by (first | omega | (simp; done) | (simp; omega)), _, rfl, ?_⟩ <;>
    simp [hu]

theorem runRollback_ok {db db2 : DB U} {i : Nat} {m : Migration U} {rb : U → Except Err U}
    (h : runRollback db i m rb = (db2, none)) : Reverted db db2 i m rb := by
  cases h0 : db.fail db.clock <;> cases h1 : db.fail (db.clock + 1) <;>
    cases h2 : db.fail (db.clock + 1 + 1) <;> cases hm : db.store.migrations <;>
    cases hu : rb db.store.user <;>
    simp only [runRollback, DB.Beginx, Tx.ExecDelete, Tx.invoke, Tx.Commit, Tx.Rollback,
      DB.fault, DB.record, DB.note, h0, h1, h2, hm, hu] at h <;>
    simp only [hu, h2, Prod.mk.injEq, reduceCtorEq, and_false] at h
  obtain ⟨h, -⟩ := h
  subst h
  exact ⟨⟨_, _, hm, hu, rfl⟩, by simp, rfl, rfl, rfl⟩

theorem runRollback_err {db db2 : DB U} {i : Nat} {m : Migration U} {rb : U → Except Err U}
    {err : Err} (h : runRollback db i m rb = (db2, some err)) : Kept db db2 i m rb err := by
  cases h0 : db.fail db.clock <;> cases h1 : db.fail (db.clock + 1) <;>
    cases h2 : db.fail (db.clock + 1 + 1) <;> cases hm : db.store.migrations <;>
    cases hu : rb db.store.user <;>
    simp only [runRollback, DB.Beginx, Tx.ExecDelete, Tx.invoke, Tx.Commit, Tx.Rollback,
      DB.fault, DB.record, DB.note, h0, h1, h2, hm, hu] at h <;>
    simp only [hu, h2, Prod.mk.injEq, reduceCtorEq, and_false, Option.some.injEq] at h <;>
    obtain ⟨h, rfl⟩ := h <;> subst h <;>
    refine ⟨rfl, rfl, rfl, by (first | omega | (simp; done) | (simp; omega)), _, rfl, ?_⟩ <;>
    simp [hu]

theorem Looked.looked_later {db db1 : DB U} {i : Nat} {id : String} {r : Option Err}
    (h : Looked db db1 i id r) : Later db db1 := by
  rw [h.eq]; exact ⟨⟨_, rfl⟩, rfl, rfl, by simp⟩

theorem Applied.applied_later {db db2 : DB U} {i : Nat} {m : Migration U} (h : Applied db db2 i m) :
    Later db db2 := ⟨⟨_, h.trace⟩, h.fail, h.driverName, by rw [h.clock]; omega⟩

theorem Refused.refused_later {db db2 : DB U} {i : Nat} {m : Migration U} {err : Err}
    (h : Refused db db2 i m err) : Later db db2 := by
  refine ⟨?_, h.fail, h.driverName, h.clock⟩
  obtain ⟨e, -, h1 | ⟨f, h1⟩ | ⟨f, -, h1⟩ | h1⟩ := h.trace <;> exact ⟨_, h1⟩

theorem Reverted.reverted_later {db db2 : DB U} {i : Nat} {m : Migration U} {rb : U → Except Err U}
    (h : Reverted db db2 i m rb) : Later db db2 :=
  ⟨⟨_, h.trace⟩, h.fail, h.driverName, by rw [h.clock]; omega⟩

theorem Kept.kept_later {db db2 : DB U} {i : Nat} {m : Migration U} {rb : U → Except Err U}
    {err : Err} (h : Kept db db2 i m rb err) : Later db db2 := by
  refine ⟨?_, h.fail, h.driverName, h.clock⟩
  obtain ⟨e, -, h1 | ⟨f, h1⟩ | ⟨f, -, h1⟩ | h1⟩ := h.trace <;> exact ⟨_, h1⟩

/-! ## The loops keep the handle's oracle and only add to its trace -/

theorem migrateLoop_later (items : List (Nat × Migration U)) (db : DB U) :
    Later db (migrateLoop items db).1 := by
  induction items, db using migrateLoop.induct with
  | case1 db => exact Later.refl db
  | case2 i m rest db db1 h1 db2 err h2 =>
    simp only [migrateLoop, h1, h2]
    exact (DB.Get_inv h1).looked_later.trans (runMigration_err h2).refused_later
  | case3 i m rest db db1 h1 db2 h2 ih =>
    simp only [migrateLoop, h1, h2]
    exact ((DB.Get_inv h1).looked_later.trans (runMigration_ok h2).applied_later).trans ih
  | case4 i m rest db db1 h1 ih =>
    simp only [migrateLoop, h1]
    exact (DB.Get_inv h1).looked_later.trans ih
  | case5 i m rest db db1 err hne h1 =>
    simp only [migrateLoop, h1]
    exact (DB.Get_inv h1).looked_later

theorem rollbackLoop_later (items : List (Nat × Migration U)) (db : DB U) :
    Later db (rollbackLoop items db).1 := by
  induction items, db using rollbackLoop.induct with
  | case1 db => exact Later.refl db
  | case2 i m rest db hrb ih =>
    simp only [rollbackLoop, hrb]
    exact ih
  | case3 i m rest db rb hrb db1 h1 ih =>
    simp only [rollbackLoop, hrb, h1]
    exact (DB.Get_inv h1).looked_later.trans ih
  | case4 i m rest db rb hrb db1 h1 db2 err h2 =>
    simp only [rollbackLoop, hrb, h1, h2]
    exact (DB.Get_inv h1).looked_later.trans (runRollback_err h2).kept_later
  | case5 i m rest db rb hrb db1 h1 db2 h2 ih =>
    simp only [rollbackLoop, hrb, h1, h2]
    exact ((DB.Get_inv h1).looked_later.trans (runRollback_ok h2).reverted_later).trans ih
  | case6 i m rest db rb hrb db1 err hne h1 =>
    simp only [rollbackLoop, hrb, h1]
    exact (DB.Get_inv h1).looked_later

/-! ## C1: a failed forward step is atomic -/

theorem Looked.trace {db db1 : DB U} {i : Nat} {id : String} {r : Option Err}
    (h : Looked db db1 i id r) : db1.trace = db.trace ++ [Event.call i id Call.Get r] := by
  rw [h.eq]; rfl

theorem Looked.store {db db1 : DB U} {i : Nat} {id : String} {r : Option Err}
    (h : Looked db db1 i id r) : db1.store = db.store := by
  rw [h.eq]; rfl

theorem Looked.looked_tracked_iff {db db1 : DB U} {i : Nat} {id : String} {r : Option Err}
    (h : Looked db db1 i id r) (x : String) : db1.tracked x ↔ db.tracked x := by
  unfold DB.tracked; rw [h.store]

theorem Refused.refused_tracked_iff {db db2 : DB U} {i : Nat} {m : Migration U} {err : Err}
    (h : Refused db db2 i m err) (x : String) : db2.tracked x ↔ db.tracked x := by
  unfold DB.tracked; rw [h.store]

theorem Applied.applied_tracked_iff {db db2 : DB U} {i : Nat} {m : Migration U}
    (h : Applied db db2 i m) (x : String) : db2.tracked x ↔ db.tracked x ∨ x = m.ID := by
  obtain ⟨rows, u, hm, -, -, hs⟩ := h.rows
  simp [DB.tracked, Store.rows, hs, hm]

theorem migrateLoop_failed_forward (items : List (Nat × Migration U)) (db : DB U)
    (hp : (items.map Prod.fst).Pairwise (· < ·)) (i : Nat) (id : String) (e : Err)
    (h : Event.call i id Call.Migrate (some e) ∈ (migrateLoop items db).1.since db) :
    (migrateLoop items db).2 = some (Err.wrap "running migration" e) ∧
    ¬ (migrateLoop items db).1.tracked id ∧
    (∀ ev ∈ (migrateLoop items db).1.since db, ∀ j, ev.idx? = some j → j ≤ i) ∧
    ∃ X, (i, X) ∈ items ∧ X.ID = id ∧ ∃ u, X.Migrate u = Except.error e := by
  induction items, db using migrateLoop.induct with
  | case1 db => simp [migrateLoop, DB.since] at h
  | case2 i0 m rest db db1 h1 db2 err h2 =>
    have g := DB.Get_inv h1
    have r := runMigration_err h2
    simp only [migrateLoop, h1, h2] at h ⊢
    obtain ⟨e0, he0, ht⟩ := r.trace
    have hne : ¬ db2.tracked m.ID := by
      rw [r.refused_tracked_iff, g.looked_tracked_iff]; exact (g.missing rfl).1
    rcases ht with ht | ⟨f, ht⟩ | ⟨f, hf, ht⟩ | ht <;>
      rw [DB.since_step g.trace ⟨_, ht⟩, DB.since_eq ht] at h ⊢ <;>
      simp [Event.idx?] at h ⊢
    obtain ⟨rfl, rfl, rfl⟩ := h
    rw [g.store] at hf
    exact ⟨he0, hne, le_refl _, m, Or.inl ⟨rfl, rfl⟩, rfl, _, hf⟩
  | case3 i0 m rest db db1 h1 db2 h2 ih =>
    have g := DB.Get_inv h1
    have r := runMigration_ok h2
    simp only [migrateLoop, h1, h2] at h ⊢
    have hl := (migrateLoop_later rest db2).trace
    rw [DB.since_step g.trace ((r.applied_later.trans (migrateLoop_later rest db2)).trace),
      DB.since_step r.trace hl] at h ⊢
    simp only [List.map_cons, List.pairwise_cons] at hp
    have h' : Event.call i id Call.Migrate (some e) ∈ (migrateLoop rest db2).1.since db2 := by
      simpa using h
    obtain ⟨a, b, c, X, hX, hid, hu⟩ := ih hp.2 h'
    have hlt : i0 < i := hp.1 i (List.mem_map.2 ⟨_, hX, rfl⟩)
    refine ⟨a, b, ?_, X, List.mem_cons_of_mem _ hX, hid, hu⟩
    intro ev hev j hj
    simp only [List.mem_append, List.mem_cons, List.mem_singleton, List.not_mem_nil,
      or_false] at hev
    rcases hev with rfl | (rfl | rfl | rfl | rfl) | hev
    · simp [Event.idx?] at hj; omega
    · simp [Event.idx?] at hj; omega
    · simp [Event.idx?] at hj; omega
    · simp [Event.idx?] at hj; omega
    · simp [Event.idx?] at hj; omega
    · exact c ev hev j hj
  | case4 i0 m rest db db1 h1 ih =>
    have g := DB.Get_inv h1
    simp only [migrateLoop, h1] at h ⊢
    have hl := (migrateLoop_later rest db1).trace
    rw [DB.since_step g.trace hl] at h ⊢
    simp only [List.map_cons, List.pairwise_cons] at hp
    have h' : Event.call i id Call.Migrate (some e) ∈ (migrateLoop rest db1).1.since db1 := by
      simpa using h
    obtain ⟨a, b, c, X, hX, hid, hu⟩ := ih hp.2 h'
    have hlt : i0 < i := hp.1 i (List.mem_map.2 ⟨_, hX, rfl⟩)
    refine ⟨a, b, ?_, X, List.mem_cons_of_mem _ hX, hid, hu⟩
    intro ev hev j hj
    simp only [List.mem_append, List.mem_cons, List.mem_singleton, List.not_mem_nil,
      or_false] at hev
    rcases hev with rfl | hev
    · simp [Event.idx?] at hj; omega
    · exact c ev hev j hj
  | case5 i0 m rest db db1 err hne h1 =>
    have g := DB.Get_inv h1
    simp only [migrateLoop, h1] at h ⊢
    rw [DB.since_eq g.trace] at h
    simp at h


theorem createMigrationTable_ok {db db0 : DB U} (h : createMigrationTable db = (db0, none)) :
    Booted db db0 := by
  cases h0 : db.fail db.clock <;> cases hm : db.store.migrations <;>
    simp only [createMigrationTable, DB.ExecCreateTable, DB.fault, h0, hm, Prod.mk.injEq,
      reduceCtorEq, and_false] at h <;>
    obtain ⟨h, -⟩ := h <;> subst h <;>
    refine ⟨?_, ?_, ?_, ?_, ?_, ?_, ?_, ?_, ?_⟩ <;> simp [DB.record, Store.rows, hm, h0]

theorem createMigrationTable_err {db db0 : DB U} {err : Err}
    (h : createMigrationTable db = (db0, some err)) : Unbooted db db0 err := by
  cases h0 : db.fail db.clock <;> cases hm : db.store.migrations <;>
    simp only [createMigrationTable, DB.ExecCreateTable, DB.fault, h0, hm, Prod.mk.injEq,
      reduceCtorEq, and_false, Option.some.injEq] at h <;>
    obtain ⟨h, rfl⟩ := h <;> subst h <;>
    refine ⟨?_, ?_, ?_, ?_, ?_, ?_⟩ <;> simp [DB.record, Store.rows, hm, h0]

theorem Booted.booted_later {db db0 : DB U} (h : Booted db db0) : Later db db0 :=
  ⟨⟨_, h.trace⟩, h.fail, h.driverName, by rw [h.clock]; omega⟩

theorem Booted.booted_tracked_iff {db db0 : DB U} (h : Booted db db0) (x : String) :
    db0.tracked x ↔ db.tracked x := by
  unfold DB.tracked; rw [h.rows]

theorem Migrate_cases (m : SqlxMigrate U) :
    (∃ db0 err, Unbooted m.db db0 err ∧ Migrate m = ({ m with db := db0 }, some err)) ∨
    (∃ db0, Booted m.db db0 ∧
      Migrate m = ({ m with db := (migrateLoop m.migrations.enum db0).1 },
        (migrateLoop m.migrations.enum db0).2)) := by
  rcases hc : createMigrationTable m.db with ⟨db0, _ | err⟩
  · exact Or.inr ⟨db0, createMigrationTable_ok hc, by simp [Migrate, hc]⟩
  · exact Or.inl ⟨db0, err, createMigrationTable_err hc, by simp [Migrate, hc]⟩

theorem Rollback_cases (m : SqlxMigrate U) :
    (∃ db0 err, Unbooted m.db db0 err ∧ Rollback m = ({ m with db := db0 }, some err)) ∨
    (∃ db0, Booted m.db db0 ∧
      Rollback m = ({ m with db := (rollbackLoop m.migrations.enum.reverse db0).1 },
        (rollbackLoop m.migrations.enum.reverse db0).2)) := by
  rcases hc : createMigrationTable m.db with ⟨db0, _ | err⟩
  · exact Or.inr ⟨db0, createMigrationTable_ok hc, by simp [Rollback, hc]⟩
  · exact Or.inl ⟨db0, err, createMigrationTable_err hc, by simp [Rollback, hc]⟩

theorem enum_sorted (ms : List (Migration U)) : (ms.enum.map Prod.fst).Pairwise (· < ·) := by
  rw [List.enum_map_fst]; exact List.pairwise_lt_range _

/-- C1. Atomicity of a failed forward step. For every migrator (any registry, any database
handle), if during `Migrate` the forward capability of the migration at position `i`, with
id `id`, is called and returns the error `e`, then: the registry does hold at position `i` a
migration with that id whose forward capability returns `e`; `Migrate` returns `e` wrapped as
`running migration: e`; after the call no tracking record for `id` exists; and no call at all
(lookup, transaction or capability) was made for a position after `i`. -/
theorem failed_forward_is_atomic (m : SqlxMigrate U) (i : Nat) (id : String) (e : Err)
    (h : Event.call i id Call.Migrate (some e) ∈ (Migrate m).1.db.since m.db) :
    (∃ X, m.migrations[i]? = some X ∧ X.ID = id ∧ ∃ u, X.Migrate u = Except.error e) ∧
    (Migrate m).2 = some (Err.wrap "running migration" e) ∧
    ¬ (Migrate m).1.db.tracked id ∧
    ∀ ev ∈ (Migrate m).1.db.since m.db, ∀ j, ev.idx? = some j → j ≤ i := by
  rcases Migrate_cases m with ⟨db0, err, hb, hM⟩ | ⟨db0, hb, hM⟩
  · obtain ⟨e0, -, ht⟩ := hb.trace
    rw [hM] at h
    simp [DB.since_eq ht] at h
  · rw [hM] at h ⊢
    simp only at h ⊢
    rw [DB.since_step hb.trace (migrateLoop_later _ db0).trace] at h ⊢
    have h' : Event.call i id Call.Migrate (some e) ∈
        (migrateLoop m.migrations.enum db0).1.since db0 := by simpa using h
    obtain ⟨a, b, c, X, hX, hid, hu⟩ :=
      migrateLoop_failed_forward _ db0 (enum_sorted _) i id e h'
    refine ⟨⟨X, List.mk_mem_enum_iff_getElem?.1 hX, hid, hu⟩, a, b, ?_⟩
    intro ev hev j hj
    rcases List.mem_append.1 hev with hev | hev
    · simp at hev; subst hev; simp [Event.idx?] at hj
    · exact c ev hev j hj

/-! ## C2: a tracked migration is skipped -/

theorem migrateLoop_skips_tracked (items : List (Nat × Migration U)) (db : DB U) (X : String)
    (hX : db.tracked X) :
    ∀ i k e, Event.call i X k e ∈ (migrateLoop items db).1.since db → k = Call.Get := by
  induction items, db using migrateLoop.induct with
  | case1 db => simp [migrateLoop, DB.since]
  | case2 i0 m rest db db1 h1 db2 err h2 =>
    have g := DB.Get_inv h1
    have r := runMigration_err h2
    have hne : m.ID ≠ X := fun hc => (g.missing rfl).1 (hc ▸ hX)
    simp only [migrateLoop, h1, h2]
    obtain ⟨e0, he0, ht⟩ := r.trace
    rcases ht with ht | ⟨f, ht⟩ | ⟨f, hf, ht⟩ | ht <;>
      rw [DB.since_step g.trace ⟨_, ht⟩, DB.since_eq ht] <;>
      simp [hne.symm]
  | case3 i0 m rest db db1 h1 db2 h2 ih =>
    have g := DB.Get_inv h1
    have r := runMigration_ok h2
    have hne : m.ID ≠ X := fun hc => (g.missing rfl).1 (hc ▸ hX)
    simp only [migrateLoop, h1, h2]
    rw [DB.since_step g.trace ((r.applied_later.trans (migrateLoop_later rest db2)).trace),
      DB.since_step r.trace (migrateLoop_later rest db2).trace]
    have hX2 : db2.tracked X := (r.applied_tracked_iff X).2 (Or.inl ((g.looked_tracked_iff X).2 hX))
    intro i k e hev
    simp [hne.symm] at hev
    exact ih hX2 i k e hev
  | case4 i0 m rest db db1 h1 ih =>
    have g := DB.Get_inv h1
    simp only [migrateLoop, h1]
    rw [DB.since_step g.trace (migrateLoop_later rest db1).trace]
    intro i k e hev
    simp at hev
    rcases hev with ⟨-, -, hk, -⟩ | hev
    · exact hk
    · exact ih ((g.looked_tracked_iff X).2 hX) i k e hev
  | case5 i0 m rest db db1 err hne h1 =>
    have g := DB.Get_inv h1
    simp only [migrateLoop, h1]
    rw [DB.since_eq g.trace]
    intro i k e hev
    simp at hev
    exact hev.2.2.1

theorem migrateLoop_error_last (items : List (Nat × Migration U)) (db : DB U) (err : Err)
    (h : (migrateLoop items db).2 = some err) :
    ∃ ev, ((migrateLoop items db).1.since db).getLast? = some ev ∧
      ∀ i id, ev ≠ Event.call i id Call.Get none := by
  induction items, db using migrateLoop.induct with
  | case1 db => simp [migrateLoop] at h
  | case2 i0 m rest db db1 h1 db2 err2 h2 =>
    have g := DB.Get_inv h1
    have r := runMigration_err h2
    simp only [migrateLoop, h1, h2]
    obtain ⟨e0, he0, ht⟩ := r.trace
    rcases ht with ht | ⟨f, ht⟩ | ⟨f, hf, ht⟩ | ht <;>
      rw [DB.since_step g.trace ⟨_, ht⟩, DB.since_eq ht] <;>
      simp
  | case3 i0 m rest db db1 h1 db2 h2 ih =>
    have g := DB.Get_inv h1
    have r := runMigration_ok h2
    simp only [migrateLoop, h1, h2] at h ⊢
    rw [DB.since_step g.trace ((r.applied_later.trans (migrateLoop_later rest db2)).trace),
      DB.since_step r.trace (migrateLoop_later rest db2).trace]
    obtain ⟨ev, hev, hne⟩ := ih h
    refine ⟨ev, ?_, hne⟩
    rw [← List.append_assoc, List.getLast?_append, hev]; rfl
  | case4 i0 m rest db db1 h1 ih =>
    have g := DB.Get_inv h1
    simp only [migrateLoop, h1] at h ⊢
    rw [DB.since_step g.trace (migrateLoop_later rest db1).trace]
    obtain ⟨ev, hev, hne⟩ := ih h
    refine ⟨ev, ?_, hne⟩
    rw [List.getLast?_append, hev]; rfl
  | case5 i0 m rest db db1 err2 hne h1 =>
    have g := DB.Get_inv h1
    simp only [migrateLoop, h1]
    rw [DB.since_eq g.trace]
    have : err2 ≠ Err.ErrNoRows := hne
    simp

/-- C2. Skip on tracked. For every migrator and every id `X` that has a tracking record
before `Migrate` is called: the only calls `Migrate` makes for a migration with id `X` are
lookups, so its forward capability is never invoked and no transaction is opened for it; and
finding a record is not an error: whenever `Migrate` returns an error, the last call it made
is not a lookup that found a record. -/
theorem tracked_is_skipped (m : SqlxMigrate U) (X : String) (hX : m.db.tracked X) :
    (∀ i k e, Event.call i X k e ∈ (Migrate m).1.db.since m.db → k = Call.Get) ∧
    (∀ err, (Migrate m).2 = some err →
      ∃ ev, ((Migrate m).1.db.since m.db).getLast? = some ev ∧
        ∀ i id, ev ≠ Event.call i id Call.Get none) := by
  rcases Migrate_cases m with ⟨db0, err, hb, hM⟩ | ⟨db0, hb, hM⟩
  · obtain ⟨e0, -, ht⟩ := hb.trace
    rw [hM]
    simp [DB.since_eq ht]
  · rw [hM]
    simp only
    rw [DB.since_step hb.trace (migrateLoop_later _ db0).trace]
    constructor
    · intro i k e hev
      simp at hev
      exact migrateLoop_skips_tracked _ db0 X ((hb.booted_tracked_iff X).2 hX) i k e hev
    · intro err herr
      obtain ⟨ev, hev, hne⟩ := migrateLoop_error_last _ db0 err herr
      refine ⟨ev, ?_, hne⟩
      rw [List.getLast?_append, hev]; rfl

/-! ## C6: the overall result of `Migrate` -/

theorem migrateLoop_success (items : List (Nat × Migration U)) (db : DB U)
    (h : (migrateLoop items db).2 = none) (x : String) :
    (migrateLoop items db).1.tracked x ↔ db.tracked x ∨ x ∈ items.map (fun p => p.2.ID) := by
  induction items, db using migrateLoop.induct with
  | case1 db => simp [migrateLoop]
  | case2 i0 m rest db db1 h1 db2 err h2 => simp [migrateLoop, h1, h2] at h
  | case3 i0 m rest db db1 h1 db2 h2 ih =>
    have g := DB.Get_inv h1
    have r := runMigration_ok h2
    simp only [migrateLoop, h1, h2] at h ⊢
    rw [ih h, r.applied_tracked_iff, g.looked_tracked_iff]
    simp only [List.map_cons, List.mem_cons]
    tauto
  | case4 i0 m rest db db1 h1 ih =>
    have g := DB.Get_inv h1
    simp only [migrateLoop, h1] at h ⊢
    rw [ih h, g.looked_tracked_iff]
    simp only [List.map_cons, List.mem_cons]
    have := g.found rfl
    constructor
    · tauto
    · rintro (h | rfl | h) <;> tauto
  | case5 i0 m rest db db1 err hne h1 => simp [migrateLoop, h1] at h

theorem migrateLoop_failure (items : List (Nat × Migration U)) (db : DB U)
    (hp : (items.map Prod.fst).Pairwise (· < ·)) (err : Err)
    (h : (migrateLoop items db).2 = some err) :
    ∃ pre k mk post, items = pre ++ (k, mk) :: post ∧
      (∀ x, (migrateLoop items db).1.tracked x ↔ db.tracked x ∨ x ∈ pre.map (fun p => p.2.ID)) ∧
      (∃ ev, ((migrateLoop items db).1.since db).getLast? = some ev ∧ ev.idx? = some k) ∧
      (∀ ev ∈ (migrateLoop items db).1.since db, ∀ j, ev.idx? = some j → j ≤ k) ∧
      (migrateLoop items db).1.store.user = (migrateLoop pre db).1.store.user := by
  induction items, db using migrateLoop.induct with
  | case1 db => simp [migrateLoop] at h
  | case2 i0 m rest db db1 h1 db2 err2 h2 =>
    have g := DB.Get_inv h1
    have r := runMigration_err h2
    simp only [migrateLoop, h1, h2]
    refine ⟨[], i0, m, rest, rfl, ?_, ?_, ?_, ?_⟩
    · intro x; rw [r.refused_tracked_iff, g.looked_tracked_iff]; simp
    · obtain ⟨e0, he0, ht⟩ := r.trace
      rcases ht with ht | ⟨f, ht⟩ | ⟨f, hf, ht⟩ | ht <;>
        rw [DB.since_step g.trace ⟨_, ht⟩, DB.since_eq ht] <;>
        simp [Event.idx?]
    · obtain ⟨e0, he0, ht⟩ := r.trace
      rcases ht with ht | ⟨f, ht⟩ | ⟨f, hf, ht⟩ | ht <;>
        rw [DB.since_step g.trace ⟨_, ht⟩, DB.since_eq ht] <;>
        simp [Event.idx?]
    · simp [migrateLoop, r.store, g.store]
  | case3 i0 m rest db db1 h1 db2 h2 ih =>
    have g := DB.Get_inv h1
    have r := runMigration_ok h2
    simp only [migrateLoop, h1, h2] at h ⊢
    rw [DB.since_step g.trace ((r.applied_later.trans (migrateLoop_later rest db2)).trace),
      DB.since_step r.trace (migrateLoop_later rest db2).trace]
    simp only [List.map_cons, List.pairwise_cons] at hp
    obtain ⟨pre, k, mk, post, hit, ht, ⟨ev, hev, hk⟩, hb, hu⟩ := ih hp.2 h
    have hlt : i0 < k := hp.1 k (by rw [hit]; simp)
    refine ⟨(i0, m) :: pre, k, mk, post, by rw [hit]; rfl, ?_, ⟨ev, ?_, hk⟩, ?_, ?_⟩
    · intro x
      rw [ht, r.applied_tracked_iff, g.looked_tracked_iff]
      simp only [List.map_cons, List.mem_cons]
      tauto
    · rw [← List.append_assoc, List.getLast?_append, hev]; rfl
    · intro ev hev j hj
      simp only [List.mem_append, List.mem_cons, List.mem_singleton, List.not_mem_nil,
        or_false] at hev
      rcases hev with rfl | (rfl | rfl | rfl | rfl) | hev
      · simp [Event.idx?] at hj; omega
      · simp [Event.idx?] at hj; omega
      · simp [Event.idx?] at hj; omega
      · simp [Event.idx?] at hj; omega
      · simp [Event.idx?] at hj; omega
      · exact hb ev hev j hj
    · simp only [migrateLoop, h1, h2]; exact hu
  | case4 i0 m rest db db1 h1 ih =>
    have g := DB.Get_inv h1
    simp only [migrateLoop, h1] at h ⊢
    rw [DB.since_step g.trace (migrateLoop_later rest db1).trace]
    simp only [List.map_cons, List.pairwise_cons] at hp
    obtain ⟨pre, k, mk, post, hit, ht, ⟨ev, hev, hk⟩, hb, hu⟩ := ih hp.2 h
    have hlt : i0 < k := hp.1 k (by rw [hit]; simp)
    refine ⟨(i0, m) :: pre, k, mk, post, by rw [hit]; rfl, ?_, ⟨ev, ?_, hk⟩, ?_, ?_⟩
    · intro x
      rw [ht, g.looked_tracked_iff]
      simp only [List.map_cons, List.mem_cons]
      have := g.found rfl
      constructor
      · tauto
      · rintro (h | rfl | h) <;> tauto
    · rw [List.getLast?_append, hev]; rfl
    · intro ev hev j hj
      simp only [List.mem_append, List.mem_cons, List.mem_singleton, List.not_mem_nil,
        or_false] at hev
      rcases hev with rfl | hev
      · simp [Event.idx?] at hj; omega
      · exact hb ev hev j hj
    · simp only [migrateLoop, h1]; exact hu
  | case5 i0 m rest db db1 err2 hne h1 =>
    have g := DB.Get_inv h1
    simp only [migrateLoop, h1]
    refine ⟨[], i0, m, rest, rfl, ?_, ?_, ?_, ?_⟩
    · intro x; rw [g.looked_tracked_iff]; simp
    · rw [DB.since_eq g.trace]; simp [Event.idx?]
    · rw [DB.since_eq g.trace]; simp [Event.idx?]
    · simp [migrateLoop, g.store]


theorem enum_split {ms : List (Migration U)} {pre post : List (Nat × Migration U)} {k : Nat}
    {mk : Migration U} (h : ms.enum = pre ++ (k, mk) :: post) :
    k = pre.length ∧ ms[k]? = some mk ∧ pre.map Prod.snd = ms.take k := by
  have h2 : (ms.enum)[pre.length]? = some (k, mk) := by
    rw [h, List.getElem?_append_right (le_refl _)]; simp
  rw [List.getElem?_enum] at h2
  have h1 := congrArg (List.map Prod.snd) h
  rw [List.enum_map_snd] at h1
  cases hk : ms[pre.length]? with
  | none => simp [hk] at h2
  | some a =>
    simp only [hk, Option.map_some', Option.some.injEq, Prod.mk.injEq] at h2
    obtain ⟨rfl, rfl⟩ := h2
    refine ⟨rfl, hk, ?_⟩
    rw [h1]; simp

theorem mem_ids_iff (ms : List (Migration U)) (x : String) :
    x ∈ ms.map (fun X => X.ID) ↔ ∃ (j : Nat) (Y : Migration U), ms[j]? = some Y ∧ Y.ID = x := by
  constructor
  · intro h
    obtain ⟨Y, hY, rfl⟩ := List.mem_map.1 h
    obtain ⟨j, hj⟩ := List.mem_iff_getElem?.1 hY
    exact ⟨j, Y, hj, rfl⟩
  · rintro ⟨j, Y, hj, rfl⟩
    exact List.mem_map.2 ⟨Y, List.mem_iff_getElem?.2 ⟨j, hj⟩, rfl⟩

theorem mem_ids_take_iff (ms : List (Migration U)) (k : Nat) (x : String) :
    x ∈ (ms.take k).map (fun X => X.ID) ↔ ∃ (j : Nat) (Y : Migration U), j < k ∧ ms[j]? = some Y ∧ Y.ID = x := by
  rw [mem_ids_iff]
  constructor
  · rintro ⟨j, Y, hj, rfl⟩
    rw [List.getElem?_take] at hj
    split at hj
    · exact ⟨j, Y, by assumption, hj, rfl⟩
    · simp at hj
  · rintro ⟨j, Y, hjk, hj, rfl⟩
    exact ⟨j, Y, by rw [List.getElem?_take, if_pos hjk]; exact hj, rfl⟩

theorem enum_ids (ms : List (Migration U)) :
    ms.enum.map (fun p => p.2.ID) = ms.map (fun X => X.ID) := by
  conv_rhs => rw [← List.enum_map_snd ms]
  rw [List.map_map]; rfl

/-- C6, amended. Overall result of `Migrate`. For every migrator one of three
things happens. Either `Migrate` returns `nil`, and afterwards the tracked ids are those
tracked before together with the ids of all migrations of the registry. Or the bootstrap of
the tracking table fails, `Migrate` returns that error wrapped, made no other call and left
the store as it was. Or `Migrate` returns an error at a position `k` of the registry: its
last call was made for position `k`, no call was made for a later position, and afterwards
the tracked ids are those tracked before together with the ids of the migrations at the
positions before `k`; so every migration before `k` has a tracking record, and a migration at
`k` or later has one exactly when its id was tracked before the call or is also the id of a
migration before `k`. -/
theorem Migrate_overall_result (m : SqlxMigrate U) :
    ((Migrate m).2 = none ∧
      ∀ x, (Migrate m).1.db.tracked x ↔
        m.db.tracked x ∨ ∃ (j : Nat) (Y : Migration U), m.migrations[j]? = some Y ∧ Y.ID = x) ∨
    (∃ e, (Migrate m).2 = some (Err.wrap "creating migrations table" e) ∧
      (Migrate m).1.db.since m.db = [Event.bootstrap (some e)] ∧
      (Migrate m).1.db.store = m.db.store) ∨
    (∃ err k, (Migrate m).2 = some err ∧ k < m.migrations.length ∧
      (∃ ev, ((Migrate m).1.db.since m.db).getLast? = some ev ∧ ev.idx? = some k) ∧
      (∀ ev ∈ (Migrate m).1.db.since m.db, ∀ j, ev.idx? = some j → j ≤ k) ∧
      ∀ x, (Migrate m).1.db.tracked x ↔
        m.db.tracked x ∨ ∃ (j : Nat) (Y : Migration U), j < k ∧ m.migrations[j]? = some Y ∧ Y.ID = x) := by
  rcases Migrate_cases m with ⟨db0, err, hb, hM⟩ | ⟨db0, hb, hM⟩
  · obtain ⟨e0, rfl, ht⟩ := hb.trace
    refine Or.inr (Or.inl ⟨e0, ?_, ?_, ?_⟩)
    · rw [hM]
    · rw [hM]; exact DB.since_eq ht
    · rw [hM]; exact hb.store
  · cases hr : (migrateLoop m.migrations.enum db0).2 with
    | none =>
      refine Or.inl ⟨by rw [hM]; exact hr, fun x => ?_⟩
      rw [hM]
      simp only
      rw [migrateLoop_success _ db0 hr, hb.booted_tracked_iff, enum_ids, mem_ids_iff]
    | some err =>
      obtain ⟨pre, k, mk, post, hit, ht, ⟨ev, hev, hk⟩, hbd, -⟩ :=
        migrateLoop_failure _ db0 (enum_sorted _) err hr
      obtain ⟨hkl, hmk, hpre⟩ := enum_split hit
      have hlen : k < m.migrations.length := by
        rcases Nat.lt_or_ge k m.migrations.length with h | h
        · exact h
        · rw [List.getElem?_eq_none h] at hmk; simp at hmk
      have hids : pre.map (fun p => p.2.ID) = (m.migrations.take k).map (fun X => X.ID) := by
        rw [← hpre, List.map_map]; rfl
      refine Or.inr (Or.inr ⟨err, k, by rw [hM]; exact hr, hlen, ?_, ?_, ?_⟩)
      · rw [hM]
        simp only
        rw [DB.since_step hb.trace (migrateLoop_later _ db0).trace]
        exact ⟨ev, by rw [List.getLast?_append, hev]; rfl, hk⟩
      · rw [hM]
        simp only
        rw [DB.since_step hb.trace (migrateLoop_later _ db0).trace]
        intro ev hev j hj
        rcases List.mem_append.1 hev with hev | hev
        · simp at hev; subst hev; simp [Event.idx?] at hj
        · exact hbd ev hev j hj
      · intro x
        rw [hM]
        simp only
        rw [ht, hb.booted_tracked_iff, hids, mem_ids_take_iff]

/-! ## C3: a second `Migrate` changes nothing -/

theorem DB.tracked_table {db : DB U} {x : String} (h : db.tracked x) :
    ∃ rows, db.store.migrations = some rows := by
  unfold DB.tracked Store.rows at h
  cases hm : db.store.migrations with
  | none => simp [hm] at h
  | some rows => exact ⟨rows, rfl⟩

theorem migrateLoop_table (items : List (Nat × Migration U)) (db : DB U)
    (h : ∃ rows, db.store.migrations = some rows) :
    ∃ rows, (migrateLoop items db).1.store.migrations = some rows := by
  induction items, db using migrateLoop.induct with
  | case1 db => simpa [migrateLoop] using h
  | case2 i0 m rest db db1 h1 db2 err h2 =>
    simp only [migrateLoop, h1, h2]
    rw [(runMigration_err h2).store, (DB.Get_inv h1).store]; exact h
  | case3 i0 m rest db db1 h1 db2 h2 ih =>
    simp only [migrateLoop, h1, h2]
    obtain ⟨rows, u, -, -, -, hs⟩ := (runMigration_ok h2).rows
    exact ih ⟨_, by rw [hs]⟩
  | case4 i0 m rest db db1 h1 ih =>
    simp only [migrateLoop, h1]
    exact ih (by rw [(DB.Get_inv h1).store]; exact h)
  | case5 i0 m rest db db1 err hne h1 =>
    simp only [migrateLoop, h1]
    rw [(DB.Get_inv h1).store]; exact h

theorem migrateLoop_all_tracked (items : List (Nat × Migration U)) (db : DB U)
    (hall : ∀ p ∈ items, db.tracked p.2.ID) :
    (migrateLoop items db).1.store = db.store ∧
    (∀ i id k e, Event.call i id k e ∈ (migrateLoop items db).1.since db → k = Call.Get) ∧
    ((∀ n, db.clock ≤ n → db.fail n = none) → (migrateLoop items db).2 = none) := by
  induction items, db using migrateLoop.induct with
  | case1 db => simp [migrateLoop, DB.since]
  | case2 i0 m rest db db1 h1 db2 err h2 =>
    exact absurd (hall (i0, m) (List.mem_cons_self _ _)) ((DB.Get_inv h1).missing rfl).1
  | case3 i0 m rest db db1 h1 db2 h2 ih =>
    exact absurd (hall (i0, m) (List.mem_cons_self _ _)) ((DB.Get_inv h1).missing rfl).1
  | case4 i0 m rest db db1 h1 ih =>
    have g := DB.Get_inv h1
    simp only [migrateLoop, h1]
    rw [DB.since_step g.trace (migrateLoop_later rest db1).trace]
    obtain ⟨a, b, c⟩ := ih (fun p hp => (g.looked_tracked_iff _).2 (hall p (List.mem_cons_of_mem _ hp)))
    refine ⟨a.trans g.store, ?_, ?_⟩
    · intro i id k e hev
      simp at hev
      rcases hev with ⟨-, -, hk, -⟩ | hev
      · exact hk
      · exact b i id k e hev
    · intro hf
      apply c
      intro n hn
      rw [g.looked_later.fail]
      exact hf n (le_trans g.looked_later.clock hn)
  | case5 i0 m rest db db1 err hne h1 =>
    have g := DB.Get_inv h1
    have ht := hall (i0, m) (List.mem_cons_self _ _)
    simp only [migrateLoop, h1]
    rw [DB.since_eq g.trace]
    refine ⟨g.store, ?_, ?_⟩
    · intro i id k e hev
      simp at hev
      exact hev.2.2.1
    · intro hf
      have := g.healthy (hf _ (le_refl _)) (DB.tracked_table ht)
      simp only [ht, if_true] at this
      simp at this

/-- C3, amended. Idempotence of `Migrate`. For every migrator whose first `Migrate` returns
`nil`, a second `Migrate` right after it makes no call but lookups (and the bootstrap), so it
invokes no forward capability and inserts no tracking record; it leaves the store, tracking
records included, as the first call left it; and it returns `nil` provided no database call
fails during it. -/
theorem Migrate_twice (m : SqlxMigrate U) (h : (Migrate m).2 = none) :
    (∀ i id k e,
      Event.call i id k e ∈ (Migrate (Migrate m).1).1.db.since (Migrate m).1.db → k = Call.Get) ∧
    (Migrate (Migrate m).1).1.db.store = (Migrate m).1.db.store ∧
    ((∀ n, (Migrate m).1.db.clock ≤ n → (Migrate m).1.db.fail n = none) →
      (Migrate (Migrate m).1).2 = none) := by
  have key : (∃ rows, (Migrate m).1.db.store.migrations = some rows) ∧
      (∀ p ∈ (Migrate m).1.migrations.enum, (Migrate m).1.db.tracked p.2.ID) := by
    rcases Migrate_cases m with ⟨db0, err, hb, hM⟩ | ⟨db0, hb, hM⟩
    · rw [hM] at h; simp at h
    · rw [hM] at h ⊢
      simp only at h ⊢
      refine ⟨migrateLoop_table _ db0 hb.table, fun p hp => ?_⟩
      rw [migrateLoop_success _ db0 h]
      exact Or.inr (List.mem_map.2 ⟨p, hp, rfl⟩)
  obtain ⟨htab, hall⟩ := key
  generalize (Migrate m).1 = m1 at htab hall ⊢
  rcases Migrate_cases m1 with ⟨db0, err, hb, hM⟩ | ⟨db0, hb, hM⟩
  · obtain ⟨e0, -, ht⟩ := hb.trace
    rw [hM]
    refine ⟨?_, hb.store, fun hf => absurd (hf _ (le_refl _)) hb.fault⟩
    simp [DB.since_eq ht]
  · rw [hM]
    simp only
    obtain ⟨a, b, c⟩ := migrateLoop_all_tracked m1.migrations.enum db0
      (fun p hp => (hb.booted_tracked_iff _).2 (hall p hp))
    rw [DB.since_step hb.trace (migrateLoop_later _ db0).trace]
    refine ⟨?_, a.trans (hb.same htab), fun hf => c ?_⟩
    · intro i id k e hev
      simp at hev
      exact b i id k e hev
    · intro n hn
      rw [hb.fail]
      exact hf n (by have := hb.clock; omega)

/-! ## C7: `Migrate` works in registry order -/

theorem migrateLoop_labels (items : List (Nat × Migration U)) (db : DB U) :
    ∀ ev ∈ (migrateLoop items db).1.since db,
      ∃ p ∈ items, ∃ k e, ev = Event.call p.1 p.2.ID k e := by
  induction items, db using migrateLoop.induct with
  | case1 db => simp [migrateLoop, DB.since]
  | case2 i0 m rest db db1 h1 db2 err h2 =>
    have g := DB.Get_inv h1
    have r := runMigration_err h2
    simp only [migrateLoop, h1, h2]
    obtain ⟨e0, he0, ht⟩ := r.trace
    rcases ht with ht | ⟨f, ht⟩ | ⟨f, hf, ht⟩ | ht <;>
      rw [DB.since_step g.trace ⟨_, ht⟩, DB.since_eq ht] <;>
      simp
  | case3 i0 m rest db db1 h1 db2 h2 ih =>
    have g := DB.Get_inv h1
    have r := runMigration_ok h2
    simp only [migrateLoop, h1, h2]
    rw [DB.since_step g.trace ((r.applied_later.trans (migrateLoop_later rest db2)).trace),
      DB.since_step r.trace (migrateLoop_later rest db2).trace]
    intro ev hev
    simp only [List.mem_append, List.mem_cons, List.mem_singleton, List.not_mem_nil,
      or_false] at hev
    rcases hev with rfl | (rfl | rfl | rfl | rfl) | hev
    · exact ⟨(i0, m), List.mem_cons_self _ _, _, _, rfl⟩
    · exact ⟨(i0, m), List.mem_cons_self _ _, _, _, rfl⟩
    · exact ⟨(i0, m), List.mem_cons_self _ _, _, _, rfl⟩
    · exact ⟨(i0, m), List.mem_cons_self _ _, _, _, rfl⟩
    · exact ⟨(i0, m), List.mem_cons_self _ _, _, _, rfl⟩
    · obtain ⟨p, hp, k, e, rfl⟩ := ih ev hev
      exact ⟨p, List.mem_cons_of_mem _ hp, k, e, rfl⟩
  | case4 i0 m rest db db1 h1 ih =>
    have g := DB.Get_inv h1
    simp only [migrateLoop, h1]
    rw [DB.since_step g.trace (migrateLoop_later rest db1).trace]
    intro ev hev
    simp only [List.mem_append, List.mem_cons, List.mem_singleton, List.not_mem_nil,
      or_false] at hev
    rcases hev with rfl | hev
    · exact ⟨(i0, m), List.mem_cons_self _ _, _, _, rfl⟩
    · obtain ⟨p, hp, k, e, rfl⟩ := ih ev hev
      exact ⟨p, List.mem_cons_of_mem _ hp, k, e, rfl⟩
  | case5 i0 m rest db db1 err hne h1 =>
    have g := DB.Get_inv h1
    simp only [migrateLoop, h1]
    rw [DB.since_eq g.trace]
    simp

theorem migrateLoop_forward_sublist (items : List (Nat × Migration U)) (db : DB U) :
    (((migrateLoop items db).1.since db).filterMap Event.forward?).Sublist
      (items.map Prod.fst) := by
  induction items, db using migrateLoop.induct with
  | case1 db => simp [migrateLoop, DB.since]
  | case2 i0 m rest db db1 h1 db2 err h2 =>
    have g := DB.Get_inv h1
    have r := runMigration_err h2
    simp only [migrateLoop, h1, h2]
    obtain ⟨e0, he0, ht⟩ := r.trace
    rcases ht with ht | ⟨f, ht⟩ | ⟨f, hf, ht⟩ | ht <;>
      rw [DB.since_step g.trace ⟨_, ht⟩, DB.since_eq ht] <;>
      simp [Event.forward?, List.filterMap_cons]
  | case3 i0 m rest db db1 h1 db2 h2 ih =>
    have g := DB.Get_inv h1
    have r := runMigration_ok h2
    simp only [migrateLoop, h1, h2]
    rw [DB.since_step g.trace ((r.applied_later.trans (migrateLoop_later rest db2)).trace),
      DB.since_step r.trace (migrateLoop_later rest db2).trace]
    simp only [List.filterMap_append, List.filterMap_cons, Event.forward?, List.filterMap_nil,
      List.nil_append, List.cons_append, List.map_cons]
    exact ih.cons₂ _
  | case4 i0 m rest db db1 h1 ih =>
    have g := DB.Get_inv h1
    simp only [migrateLoop, h1]
    rw [DB.since_step g.trace (migrateLoop_later rest db1).trace]
    simp only [List.filterMap_append, List.filterMap_cons, Event.forward?, List.filterMap_nil,
      List.nil_append, List.map_cons]
    exact ih.cons _
  | case5 i0 m rest db db1 err hne h1 =>
    have g := DB.Get_inv h1
    simp only [migrateLoop, h1]
    rw [DB.since_eq g.trace]
    simp [Event.forward?, List.filterMap_cons]


theorem migrateLoop_idx_mem (items : List (Nat × Migration U)) (db : DB U) (i : Nat)
    (id : String) (k : Call) (e : Option Err)
    (h : Event.call i id k e ∈ (migrateLoop items db).1.since db) :
    i ∈ items.map Prod.fst := by
  obtain ⟨p, hp, k2, e2, heq⟩ := migrateLoop_labels items db _ h
  simp only [Event.call.injEq] at heq
  exact List.mem_map.2 ⟨p, hp, heq.1.symm⟩

theorem migrateLoop_order (items : List (Nat × Migration U)) (db : DB U)
    (hp : (items.map Prod.fst).Pairwise (· < ·)) (i j : Nat) (idA idB : String)
    (eA eB : Option Err) (hij : i < j)
    (hA : Event.call i idA Call.Migrate eA ∈ (migrateLoop items db).1.since db)
    (hB : Event.call j idB Call.Migrate eB ∈ (migrateLoop items db).1.since db) :
    ∃ pre post, (migrateLoop items db).1.since db = pre ++ post ∧
      txForward i idA <:+: pre ∧
      (∀ ev ∈ pre, ev.idx? ≠ some j) ∧ (∀ ev ∈ post, ev.idx? ≠ some i) := by
  induction items, db using migrateLoop.induct with
  | case1 db => simp [migrateLoop, DB.since] at hA
  | case2 i0 m rest db db1 h1 db2 err h2 =>
    exfalso
    have g := DB.Get_inv h1
    have r := runMigration_err h2
    simp only [migrateLoop, h1, h2] at hA hB
    obtain ⟨e0, he0, ht⟩ := r.trace
    rcases ht with ht | ⟨f, ht⟩ | ⟨f, hf, ht⟩ | ht <;>
      rw [DB.since_step g.trace ⟨_, ht⟩, DB.since_eq ht] at hA hB <;>
      simp at hA hB
    all_goals omega
  | case3 i0 m rest db db1 h1 db2 h2 ih =>
    have g := DB.Get_inv h1
    have r := runMigration_ok h2
    simp only [migrateLoop, h1, h2] at hA hB ⊢
    rw [DB.since_step g.trace ((r.applied_later.trans (migrateLoop_later rest db2)).trace),
      DB.since_step r.trace (migrateLoop_later rest db2).trace] at hA hB ⊢
    simp only [List.map_cons, List.pairwise_cons] at hp
    have hgt : ∀ n id k e, Event.call n id k e ∈ (migrateLoop rest db2).1.since db2 → i0 < n :=
      fun n id k e h => hp.1 n (migrateLoop_idx_mem rest db2 n id k e h)
    simp only [List.mem_append, List.mem_cons, List.mem_singleton, Event.call.injEq,
      reduceCtorEq, and_false, false_and, false_or, or_false, List.not_mem_nil,
      and_true, true_and] at hA hB
    rcases hA with ⟨rfl, rfl, rfl⟩ | hA
    · rcases hB with ⟨rfl, -, -⟩ | hB
      · omega
      · refine ⟨Event.call i m.ID Call.Get (some Err.ErrNoRows) :: txForward i m.ID,
          (migrateLoop rest db2).1.since db2, by simp [txForward],
          ⟨[Event.call i m.ID Call.Get (some Err.ErrNoRows)], [], by simp⟩, ?_, ?_⟩
        · intro ev hev
          simp [txForward] at hev
          rcases hev with rfl | rfl | rfl | rfl | rfl <;> simp [Event.idx?] <;> omega
        · intro ev hev hc
          cases ev with
          | bootstrap e => simp [Event.idx?] at hc
          | call n id k e =>
            simp only [Event.idx?, Option.some.injEq] at hc
            have := hgt n id k e hev
            omega
    · have hi := hgt _ _ _ _ hA
      rcases hB with ⟨rfl, -, -⟩ | hB
      · omega
      · obtain ⟨pre, post, hs, hin, h3, h4⟩ := ih hp.2 hA hB
        have hj := hgt _ _ _ _ hB
        refine ⟨Event.call i0 m.ID Call.Get (some Err.ErrNoRows) :: (txForward i0 m.ID ++ pre),
          post, by rw [hs]; simp [txForward], ?_, ?_, h4⟩
        · obtain ⟨s, t, hst⟩ := hin
          exact ⟨Event.call i0 m.ID Call.Get (some Err.ErrNoRows) :: (txForward i0 m.ID ++ s), t,
            by rw [← hst]; simp⟩
        · intro ev hev
          simp only [List.mem_cons, List.mem_append, txForward, List.not_mem_nil, or_false]
            at hev
          rcases hev with rfl | (rfl | rfl | rfl | rfl) | hev
          · simp [Event.idx?]; omega
          · simp [Event.idx?]; omega
          · simp [Event.idx?]; omega
          · simp [Event.idx?]; omega
          · simp [Event.idx?]; omega
          · exact h3 ev hev
  | case4 i0 m rest db db1 h1 ih =>
    have g := DB.Get_inv h1
    simp only [migrateLoop, h1] at hA hB ⊢
    rw [DB.since_step g.trace (migrateLoop_later rest db1).trace] at hA hB ⊢
    simp only [List.map_cons, List.pairwise_cons] at hp
    have hgt : ∀ n id k e, Event.call n id k e ∈ (migrateLoop rest db1).1.since db1 → i0 < n :=
      fun n id k e h => hp.1 n (migrateLoop_idx_mem rest db1 n id k e h)
    simp only [List.mem_append, List.mem_cons, List.mem_singleton, Event.call.injEq,
      reduceCtorEq, and_false, false_and, false_or, or_false, List.not_mem_nil,
      and_true, true_and] at hA hB
    obtain ⟨pre, post, hs, hin, h3, h4⟩ := ih hp.2 hA hB
    have hj := hgt _ _ _ _ hB
    refine ⟨Event.call i0 m.ID Call.Get none :: pre, post, by rw [hs]; simp, ?_, ?_, h4⟩
    · obtain ⟨s, t, hst⟩ := hin
      exact ⟨Event.call i0 m.ID Call.Get none :: s, t, by rw [← hst]; simp⟩
    · intro ev hev
      simp only [List.mem_cons] at hev
      rcases hev with rfl | hev
      · simp [Event.idx?]; omega
      · exact h3 ev hev
  | case5 i0 m rest db db1 err hne h1 =>
    have g := DB.Get_inv h1
    simp only [migrateLoop, h1] at hA
    rw [DB.since_eq g.trace] at hA
    simp at hA


/-- C7. Ordering of `Migrate`. For every migrator: the positions whose forward capability
`Migrate` invokes, in the order of invocation, form a sublist of `0, 1, ..., n-1`, the
positions of the registry in registry order; every call is labelled with a position of the
registry and the id found there; and whenever the forward capabilities at positions `i < j`
are both invoked, the trace of the call splits in two parts, the first holding the whole
transaction of `i` (begin, insert, forward capability, commit, all successful) and no call
for `j`, the second holding no call for `i`: the transaction of `i` is complete before the
lookup, the transaction or the forward capability of `j` begins. -/
theorem Migrate_in_registry_order (m : SqlxMigrate U) :
    (((Migrate m).1.db.since m.db).filterMap Event.forward?).Sublist
      (List.range m.migrations.length) ∧
    (∀ i id k e, Event.call i id k e ∈ (Migrate m).1.db.since m.db →
      ∃ X, m.migrations[i]? = some X ∧ X.ID = id) ∧
    (∀ i j idA idB eA eB, i < j →
      Event.call i idA Call.Migrate eA ∈ (Migrate m).1.db.since m.db →
      Event.call j idB Call.Migrate eB ∈ (Migrate m).1.db.since m.db →
      ∃ pre post, (Migrate m).1.db.since m.db = pre ++ post ∧
        txForward i idA <:+: pre ∧
        (∀ ev ∈ pre, ev.idx? ≠ some j) ∧ (∀ ev ∈ post, ev.idx? ≠ some i)) := by
  rcases Migrate_cases m with ⟨db0, err, hb, hM⟩ | ⟨db0, hb, hM⟩
  · obtain ⟨e0, -, ht⟩ := hb.trace
    rw [hM]
    simp [DB.since_eq ht, Event.forward?, List.filterMap_cons]
  · rw [hM]
    simp only
    rw [DB.since_step hb.trace (migrateLoop_later _ db0).trace]
    refine ⟨?_, ?_, ?_⟩
    · have := migrateLoop_forward_sublist m.migrations.enum db0
      rw [List.enum_map_fst] at this
      simpa [Event.forward?, List.filterMap_cons] using this
    · intro i id k e hev
      simp only [List.mem_append, List.mem_singleton, reduceCtorEq, false_or] at hev
      obtain ⟨p, hp, k2, e2, heq⟩ := migrateLoop_labels _ db0 _ hev
      simp only [Event.call.injEq] at heq
      obtain ⟨rfl, rfl, -, -⟩ := heq
      exact ⟨p.2, List.mk_mem_enum_iff_getElem?.1 hp, rfl⟩
    · intro i j idA idB eA eB hij hA hB
      simp only [List.mem_append, List.mem_singleton, reduceCtorEq, false_or] at hA hB
      obtain ⟨pre, post, hs, ⟨s, t, hst⟩, h3, h4⟩ :=
        migrateLoop_order _ db0 (enum_sorted _) i j idA idB eA eB hij hA hB
      refine ⟨Event.bootstrap none :: pre, post, by rw [hs]; simp,
        ⟨Event.bootstrap none :: s, t, by rw [← hst]; simp⟩, ?_, h4⟩
      intro ev hev
      simp only [List.mem_cons] at hev
      rcases hev with rfl | hev
      · simp [Event.idx?]
      · exact h3 ev hev

/-! ## C10: an id registered twice is applied once -/

theorem Later.nofault {db db2 : DB U} (h : Later db db2)
    (hf : ∀ n, db.clock ≤ n → db.fail n = none) : ∀ n, db2.clock ≤ n → db2.fail n = none := by
  intro n hn
  rw [h.fail]
  exact hf n (le_trans h.clock hn)

theorem runMigration_healthy (db : DB U) (i : Nat) (m : Migration U)
    (hf : ∀ n, db.clock ≤ n → db.fail n = none) (hun : ¬ db.tracked m.ID)
    (htab : ∃ rows, db.store.migrations = some rows) :
    (runMigration db i m).2 = none ∨
    ∃ e f, (runMigration db i m).1.trace = db.trace ++ [Event.call i m.ID Call.Beginx none,
      Event.call i m.ID Call.Insert none, Event.call i m.ID Call.Migrate (some e),
      Event.call i m.ID Call.TxRollback f] := by
  obtain ⟨rows, hm⟩ := htab
  have hin : m.ID ∉ rows := by simpa [DB.tracked, Store.rows, hm] using hun
  have h0 := hf db.clock (le_refl _)
  have h1 := hf (db.clock + 1) (by omega)
  have h2 := hf (db.clock + 1 + 1) (by omega)
  cases hu : m.Migrate db.store.user with
  | error e =>
    right
    refine ⟨e, none, ?_⟩
    simp [runMigration, DB.Beginx, Tx.ExecInsert, Tx.invoke, Tx.Commit, Tx.Rollback, DB.fault,
      DB.record, DB.note, h0, h1, h2, hm, hin, hu]
  | ok u =>
    left
    simp [runMigration, DB.Beginx, Tx.ExecInsert, Tx.invoke, Tx.Commit, DB.fault, DB.record,
      DB.note, h0, h1, h2, hm, hin, hu]

theorem migrateLoop_forward_first (items : List (Nat × Migration U)) (db : DB U)
    (hp : (items.map Prod.fst).Pairwise (· < ·)) (n : Nat) (x : String) (e : Option Err)
    (h : Event.call n x Call.Migrate e ∈ (migrateLoop items db).1.since db) :
    ¬ db.tracked x ∧ ∀ q ∈ items, q.2.ID = x → n ≤ q.1 := by
  induction items, db using migrateLoop.induct with
  | case1 db => simp [migrateLoop, DB.since] at h
  | case2 i0 m rest db db1 h1 db2 err h2 =>
    have g := DB.Get_inv h1
    have r := runMigration_err h2
    simp only [migrateLoop, h1, h2] at h
    simp only [List.map_cons, List.pairwise_cons] at hp
    have hn : n = i0 ∧ x = m.ID := by
      obtain ⟨e0, he0, ht⟩ := r.trace
      rcases ht with ht | ⟨f, ht⟩ | ⟨f, hf, ht⟩ | ht <;>
        rw [DB.since_step g.trace ⟨_, ht⟩, DB.since_eq ht] at h <;>
        simp at h <;> exact ⟨h.1, h.2.1⟩
    obtain ⟨rfl, rfl⟩ := hn
    refine ⟨(g.missing rfl).1, ?_⟩
    intro q hq _
    rcases List.mem_cons.1 hq with rfl | hq
    · exact le_refl _
    · exact le_of_lt (hp.1 q.1 (List.mem_map.2 ⟨q, hq, rfl⟩))
  | case3 i0 m rest db db1 h1 db2 h2 ih =>
    have g := DB.Get_inv h1
    have r := runMigration_ok h2
    simp only [migrateLoop, h1, h2] at h
    rw [DB.since_step g.trace ((r.applied_later.trans (migrateLoop_later rest db2)).trace),
      DB.since_step r.trace (migrateLoop_later rest db2).trace] at h
    simp only [List.map_cons, List.pairwise_cons] at hp
    simp only [List.mem_append, List.mem_cons, List.mem_singleton, Event.call.injEq,
      reduceCtorEq, and_false, false_and, false_or, or_false, List.not_mem_nil,
      and_true, true_and] at h
    rcases h with ⟨rfl, rfl, rfl⟩ | h
    · refine ⟨(g.missing rfl).1, ?_⟩
      intro q hq _
      rcases List.mem_cons.1 hq with rfl | hq
      · exact le_refl _
      · exact le_of_lt (hp.1 q.1 (List.mem_map.2 ⟨q, hq, rfl⟩))
    · obtain ⟨a, b⟩ := ih hp.2 h
      rw [r.applied_tracked_iff, g.looked_tracked_iff, not_or] at a
      refine ⟨a.1, ?_⟩
      intro q hq hid
      rcases List.mem_cons.1 hq with rfl | hq
      · exact absurd hid.symm a.2
      · exact b q hq hid
  | case4 i0 m rest db db1 h1 ih =>
    have g := DB.Get_inv h1
    simp only [migrateLoop, h1] at h
    rw [DB.since_step g.trace (migrateLoop_later rest db1).trace] at h
    simp only [List.map_cons, List.pairwise_cons] at hp
    simp only [List.mem_append, List.mem_cons, List.mem_singleton, Event.call.injEq,
      reduceCtorEq, and_false, false_and, false_or, or_false, List.not_mem_nil,
      and_true, true_and] at h
    obtain ⟨a, b⟩ := ih hp.2 h
    rw [g.looked_tracked_iff] at a
    refine ⟨a, ?_⟩
    intro q hq hid
    rcases List.mem_cons.1 hq with rfl | hq
    · exact absurd (hid ▸ g.found rfl) a
    · exact b q hq hid
  | case5 i0 m rest db db1 err hne h1 =>
    have g := DB.Get_inv h1
    simp only [migrateLoop, h1] at h
    rw [DB.since_eq g.trace] at h
    simp at h

theorem migrateLoop_healthy (items : List (Nat × Migration U)) (db : DB U)
    (hp : (items.map Prod.fst).Pairwise (· < ·))
    (hf : ∀ n, db.clock ≤ n → db.fail n = none)
    (htab : ∃ rows, db.store.migrations = some rows)
    (hok : ∀ n id e,
      Event.call n id Call.Migrate e ∈ (migrateLoop items db).1.since db → e = none) :
    (migrateLoop items db).2 = none ∧
    (∀ p ∈ items, ¬ db.tracked p.2.ID → (∀ q ∈ items, q.2.ID = p.2.ID → p.1 ≤ q.1) →
      Event.call p.1 p.2.ID Call.Migrate none ∈ (migrateLoop items db).1.since db) ∧
    (∀ p ∈ items, (db.tracked p.2.ID ∨ ∃ q ∈ items, q.1 < p.1 ∧ q.2.ID = p.2.ID) →
      Event.call p.1 p.2.ID Call.Get none ∈ (migrateLoop items db).1.since db) := by
  induction items, db using migrateLoop.induct with
  | case1 db => simp [migrateLoop]
  | case2 i0 m rest db db1 h1 db2 err h2 =>
    exfalso
    have g := DB.Get_inv h1
    simp only [migrateLoop, h1, h2] at hok
    rcases runMigration_healthy db1 i0 m (g.looked_later.nofault hf)
      (by rw [g.looked_tracked_iff]; exact (g.missing rfl).1) (by rw [g.store]; exact htab)
      with hn | ⟨e, f, ht⟩
    · rw [h2] at hn
      simp at hn
    · rw [h2] at ht
      simp only at ht
      rw [DB.since_step g.trace ⟨_, ht⟩, DB.since_eq ht] at hok
      have := hok i0 m.ID (some e) (by simp)
      simp at this
  | case3 i0 m rest db db1 h1 db2 h2 ih =>
    have g := DB.Get_inv h1
    have r := runMigration_ok h2
    simp only [migrateLoop, h1, h2]
    simp only [migrateLoop, h1, h2] at hok
    rw [DB.since_step g.trace ((r.applied_later.trans (migrateLoop_later rest db2)).trace),
      DB.since_step r.trace (migrateLoop_later rest db2).trace] at hok ⊢
    simp only [List.map_cons, List.pairwise_cons] at hp
    have htab2 : ∃ rows, db2.store.migrations = some rows := by
      obtain ⟨rows, u, -, -, -, hs⟩ := r.rows
      exact ⟨_, by rw [hs]⟩
    obtain ⟨a, b, c⟩ := ih hp.2 ((g.looked_later.trans r.applied_later).nofault hf) htab2
      (fun n id e hev => hok n id e
        (List.mem_append_right _ (List.mem_append_right _ hev)))
    refine ⟨a, ?_, ?_⟩
    · intro p hpm hun hfirst
      rcases List.mem_cons.1 hpm with rfl | hpm
      · simp
      · have hne : p.2.ID ≠ m.ID := by
          intro hc
          have := hfirst (i0, m) (List.mem_cons_self _ _) hc.symm
          have := hp.1 p.1 (List.mem_map.2 ⟨p, hpm, rfl⟩)
          simp only at *
          omega
        have := b p hpm (by rw [r.applied_tracked_iff, g.looked_tracked_iff]; tauto)
          (fun q hq => hfirst q (List.mem_cons_of_mem _ hq))
        simp [this]
    · intro p hpm hcase
      rcases List.mem_cons.1 hpm with rfl | hpm
      · exfalso
        rcases hcase with ht | ⟨q, hq, hlt, -⟩
        · exact (g.missing rfl).1 ht
        · rcases List.mem_cons.1 hq with rfl | hq
          · exact lt_irrefl _ hlt
          · have := hp.1 q.1 (List.mem_map.2 ⟨q, hq, rfl⟩)
            simp only at *
            omega
      · have : Event.call p.1 p.2.ID Call.Get none ∈ (migrateLoop rest db2).1.since db2 := by
          apply c p hpm
          rw [r.applied_tracked_iff, g.looked_tracked_iff]
          rcases hcase with ht | ⟨q, hq, hlt, hid⟩
          · exact Or.inl (Or.inl ht)
          · rcases List.mem_cons.1 hq with rfl | hq
            · exact Or.inl (Or.inr hid.symm)
            · exact Or.inr ⟨q, hq, hlt, hid⟩
        simp [this]
  | case4 i0 m rest db db1 h1 ih =>
    have g := DB.Get_inv h1
    simp only [migrateLoop, h1] at hok ⊢
    rw [DB.since_step g.trace (migrateLoop_later rest db1).trace] at hok ⊢
    simp only [List.map_cons, List.pairwise_cons] at hp
    obtain ⟨a, b, c⟩ := ih hp.2 (g.looked_later.nofault hf) (by rw [g.store]; exact htab)
      (fun n id e hev => hok n id e (List.mem_append_right _ hev))
    refine ⟨a, ?_, ?_⟩
    · intro p hpm hun hfirst
      rcases List.mem_cons.1 hpm with rfl | hpm
      · exact absurd (g.found rfl) hun
      · have := b p hpm (by rw [g.looked_tracked_iff]; exact hun)
          (fun q hq => hfirst q (List.mem_cons_of_mem _ hq))
        simp [this]
    · intro p hpm hcase
      rcases List.mem_cons.1 hpm with rfl | hpm
      · simp
      · have : Event.call p.1 p.2.ID Call.Get none ∈ (migrateLoop rest db1).1.since db1 := by
          apply c p hpm
          rw [g.looked_tracked_iff]
          rcases hcase with ht | ⟨q, hq, hlt, hid⟩
          · exact Or.inl ht
          · rcases List.mem_cons.1 hq with rfl | hq
            · exact Or.inl (hid ▸ g.found rfl)
            · exact Or.inr ⟨q, hq, hlt, hid⟩
        simp [this]
  | case5 i0 m rest db db1 err hne h1 =>
    exfalso
    have g := DB.Get_inv h1
    have := g.healthy (hf _ (le_refl _)) htab
    split_ifs at this
    exact hne (Option.some.inj this)


/-- C10. Duplicate ids within one `Migrate`. For every migrator whose registry holds `X` at
position `i` and `Y` at a later position `j` with the same id, where `i` is the first
position with that id, the id is untracked before the call, no database call fails and every
forward capability that `Migrate` invokes succeeds (every call of a forward capability in the
trace returned `nil`): `Migrate` returns `nil`; the forward capability at position `i` is
invoked and returns `nil`; no forward capability is invoked for that id at any other
position; and the lookup at position `j` finds the record. -/
theorem duplicate_ids_run_once (m : SqlxMigrate U) (i j : Nat) (X Y : Migration U)
    (hf : ∀ n, m.db.clock ≤ n → m.db.fail n = none)
    (hok : ∀ n id e, Event.call n id Call.Migrate e ∈ (Migrate m).1.db.since m.db → e = none)
    (hi : m.migrations[i]? = some X) (hj : m.migrations[j]? = some Y) (hij : i < j)
    (hid : Y.ID = X.ID)
    (hfirst : ∀ n Z, m.migrations[n]? = some Z → Z.ID = X.ID → i ≤ n)
    (hun : ¬ m.db.tracked X.ID) :
    (Migrate m).2 = none ∧
    Event.call i X.ID Call.Migrate none ∈ (Migrate m).1.db.since m.db ∧
    (∀ n e, Event.call n X.ID Call.Migrate e ∈ (Migrate m).1.db.since m.db → n = i) ∧
    Event.call j X.ID Call.Get none ∈ (Migrate m).1.db.since m.db := by
  rcases Migrate_cases m with ⟨db0, err, hb, hM⟩ | ⟨db0, hb, hM⟩
  · exact absurd (hf _ (le_refl _)) hb.fault
  · rw [hM] at hok ⊢
    simp only at hok ⊢
    rw [DB.since_step hb.trace (migrateLoop_later _ db0).trace] at hok ⊢
    have hiX : (i, X) ∈ m.migrations.enum := List.mk_mem_enum_iff_getElem?.2 hi
    have hjY : (j, Y) ∈ m.migrations.enum := List.mk_mem_enum_iff_getElem?.2 hj
    have hun0 : ¬ db0.tracked X.ID := by rw [hb.booted_tracked_iff]; exact hun
    have hfst : ∀ q ∈ m.migrations.enum, q.2.ID = X.ID → i ≤ q.1 :=
      fun q hq hqid => hfirst q.1 q.2 (List.mk_mem_enum_iff_getElem?.1 hq) hqid
    obtain ⟨a, b, c⟩ := migrateLoop_healthy m.migrations.enum db0 (enum_sorted _)
      (hb.booted_later.nofault hf) hb.table
      (fun n id e hev => hok n id e (List.mem_append_right _ hev))
    refine ⟨a, ?_, ?_, ?_⟩
    · have := b (i, X) hiX hun0 hfst
      simp [this]
    · intro n e hev
      simp only [List.mem_append, List.mem_singleton, reduceCtorEq, false_or] at hev
      obtain ⟨-, hle⟩ := migrateLoop_forward_first _ db0 (enum_sorted _) n X.ID e hev
      have h1 := hle (i, X) hiX rfl
      obtain ⟨p, hp, k2, e2, heq⟩ := migrateLoop_labels _ db0 _ hev
      simp only [Event.call.injEq] at heq
      have h2 := hfst p hp heq.2.1.symm
      have h3 := heq.1
      simp only at h1
      omega
    · have := c (j, Y) hjY (Or.inr ⟨(i, X), hiX, hij, hid.symm⟩)
      simp only [hid] at this
      simp [this]

/-! ## C5: `Rollback` skips a migration without backward capability -/

theorem Reverted.reverted_tracked_iff {db db2 : DB U} {i : Nat} {m : Migration U} {rb : U → Except Err U}
    (h : Reverted db db2 i m rb) (x : String) : db2.tracked x ↔ db.tracked x ∧ x ≠ m.ID := by
  obtain ⟨rows, u, hm, -, hs⟩ := h.rows
  simp [DB.tracked, Store.rows, hs, hm]

theorem Kept.kept_tracked_iff {db db2 : DB U} {i : Nat} {m : Migration U} {rb : U → Except Err U}
    {err : Err} (h : Kept db db2 i m rb err) (x : String) : db2.tracked x ↔ db.tracked x := by
  unfold DB.tracked; rw [h.store]

theorem rollbackLoop_labels (items : List (Nat × Migration U)) (db : DB U) :
    ∀ ev ∈ (rollbackLoop items db).1.since db,
      ∃ p ∈ items, p.2.Rollback ≠ none ∧ ∃ k e, ev = Event.call p.1 p.2.ID k e := by
  induction items, db using rollbackLoop.induct with
  | case1 db => simp [rollbackLoop, DB.since]
  | case2 i0 m rest db hrb ih =>
    simp only [rollbackLoop, hrb]
    intro ev hev
    obtain ⟨p, hp, h⟩ := ih ev hev
    exact ⟨p, List.mem_cons_of_mem _ hp, h⟩
  | case3 i0 m rest db rb hrb db1 h1 ih =>
    have g := DB.Get_inv h1
    simp only [rollbackLoop, hrb, h1]
    rw [DB.since_step g.trace (rollbackLoop_later rest db1).trace]
    intro ev hev
    simp only [List.mem_append, List.mem_cons, List.mem_singleton, List.not_mem_nil,
      or_false] at hev
    rcases hev with rfl | hev
    · exact ⟨(i0, m), List.mem_cons_self _ _, by simp [hrb], _, _, rfl⟩
    · obtain ⟨p, hp, h⟩ := ih ev hev
      exact ⟨p, List.mem_cons_of_mem _ hp, h⟩
  | case4 i0 m rest db rb hrb db1 h1 db2 err h2 =>
    have g := DB.Get_inv h1
    have r := runRollback_err h2
    simp only [rollbackLoop, hrb, h1, h2]
    obtain ⟨e0, he0, ht⟩ := r.trace
    rcases ht with ht | ⟨f, ht⟩ | ⟨f, hf, ht⟩ | ht <;>
      rw [DB.since_step g.trace ⟨_, ht⟩, DB.since_eq ht] <;>
      simp [hrb]
  | case5 i0 m rest db rb hrb db1 h1 db2 h2 ih =>
    have g := DB.Get_inv h1
    have r := runRollback_ok h2
    simp only [rollbackLoop, hrb, h1, h2]
    rw [DB.since_step g.trace ((r.reverted_later.trans (rollbackLoop_later rest db2)).trace),
      DB.since_step r.trace (rollbackLoop_later rest db2).trace]
    intro ev hev
    simp only [List.mem_append, List.mem_cons, List.mem_singleton, List.not_mem_nil,
      or_false] at hev
    rcases hev with rfl | (rfl | rfl | rfl | rfl) | hev
    · exact ⟨(i0, m), List.mem_cons_self _ _, by simp [hrb], _, _, rfl⟩
    · exact ⟨(i0, m), List.mem_cons_self _ _, by simp [hrb], _, _, rfl⟩
    · exact ⟨(i0, m), List.mem_cons_self _ _, by simp [hrb], _, _, rfl⟩
    · exact ⟨(i0, m), List.mem_cons_self _ _, by simp [hrb], _, _, rfl⟩
    · exact ⟨(i0, m), List.mem_cons_self _ _, by simp [hrb], _, _, rfl⟩
    · obtain ⟨p, hp, h⟩ := ih ev hev
      exact ⟨p, List.mem_cons_of_mem _ hp, h⟩
  | case6 i0 m rest db rb hrb db1 err hne h1 =>
    have g := DB.Get_inv h1
    simp only [rollbackLoop, hrb, h1]
    rw [DB.since_eq g.trace]
    simp [hrb]

theorem rollbackLoop_tracked (items : List (Nat × Migration U)) (db : DB U) (x : String) :
    ((rollbackLoop items db).1.tracked x → db.tracked x) ∧
    ((∀ p ∈ items, p.2.ID = x → p.2.Rollback = none) → db.tracked x →
      (rollbackLoop items db).1.tracked x) := by
  induction items, db using rollbackLoop.induct with
  | case1 db => simp [rollbackLoop]
  | case2 i0 m rest db hrb ih =>
    simp only [rollbackLoop, hrb]
    exact ⟨ih.1, fun h => ih.2 (fun p hp => h p (List.mem_cons_of_mem _ hp))⟩
  | case3 i0 m rest db rb hrb db1 h1 ih =>
    have g := DB.Get_inv h1
    simp only [rollbackLoop, hrb, h1]
    rw [g.looked_tracked_iff] at ih
    exact ⟨ih.1, fun h => ih.2 (fun p hp => h p (List.mem_cons_of_mem _ hp))⟩
  | case4 i0 m rest db rb hrb db1 h1 db2 err h2 =>
    have g := DB.Get_inv h1
    have r := runRollback_err h2
    simp only [rollbackLoop, hrb, h1, h2]
    rw [r.kept_tracked_iff, g.looked_tracked_iff]
    exact ⟨id, fun _ => id⟩
  | case5 i0 m rest db rb hrb db1 h1 db2 h2 ih =>
    have g := DB.Get_inv h1
    have r := runRollback_ok h2
    simp only [rollbackLoop, hrb, h1, h2]
    rw [r.reverted_tracked_iff, g.looked_tracked_iff] at ih
    refine ⟨fun h => (ih.1 h).1, fun h ht => ih.2 (fun p hp => h p (List.mem_cons_of_mem _ hp))
      ⟨ht, ?_⟩⟩
    intro hx
    have := h (i0, m) (List.mem_cons_self _ _) hx.symm
    simp [hrb] at this
  | case6 i0 m rest db rb hrb db1 err hne h1 =>
    have g := DB.Get_inv h1
    simp only [rollbackLoop, hrb, h1]
    rw [g.looked_tracked_iff]
    exact ⟨id, fun _ => id⟩

/-- C5, amended. Rollback irreversibility. For every migrator and every position `i` of
its registry holding a migration `X` without backward capability: `Rollback` makes no call
for position `i` (no lookup, no transaction, no delete), whether or not `X` is tracked; a
tracking record for the id of `X` that exists after the call existed before it; and if no
migration of the registry with the id of `X` has a backward capability, the record exists
after the call if and only if it existed before. -/
theorem Rollback_skips_irreversible (m : SqlxMigrate U) (i : Nat) (X : Migration U)
    (hi : m.migrations[i]? = some X) (hnil : X.Rollback = none) :
    (∀ ev ∈ (Rollback m).1.db.since m.db, ev.idx? ≠ some i) ∧
    ((Rollback m).1.db.tracked X.ID → m.db.tracked X.ID) ∧
    ((∀ Y ∈ m.migrations, Y.ID = X.ID → Y.Rollback = none) →
      ((Rollback m).1.db.tracked X.ID ↔ m.db.tracked X.ID)) := by
  rcases Rollback_cases m with ⟨db0, err, hb, hM⟩ | ⟨db0, hb, hM⟩
  · obtain ⟨e0, -, ht⟩ := hb.trace
    rw [hM]
    simp only [DB.since_eq ht, DB.tracked, hb.store]
    simp [Event.idx?]
  · rw [hM]
    simp only
    rw [DB.since_step hb.trace (rollbackLoop_later _ db0).trace]
    have ht := rollbackLoop_tracked m.migrations.enum.reverse db0 X.ID
    rw [hb.booted_tracked_iff] at ht
    refine ⟨?_, ht.1, fun hall => ⟨ht.1, ht.2 ?_⟩⟩
    · intro ev hev hc
      rcases List.mem_append.1 hev with hev | hev
      · simp at hev; subst hev; simp [Event.idx?] at hc
      · obtain ⟨p, hp, hrb, k, e, rfl⟩ := rollbackLoop_labels _ db0 ev hev
        simp only [Event.idx?, Option.some.injEq] at hc
        have hp2 := List.mk_mem_enum_iff_getElem?.1 (List.mem_reverse.1 hp)
        rw [hc, hi] at hp2
        simp only [Option.some.injEq] at hp2
        rw [← hp2] at hrb
        exact hrb hnil
    · intro p hp hid
      have hp2 := List.mk_mem_enum_iff_getElem?.1 (List.mem_reverse.1 hp)
      exact hall p.2 (List.mem_iff_getElem?.2 ⟨p.1, hp2⟩) hid

/-! ## C8: a failed backward step stops `Rollback` -/

theorem rollbackLoop_idx_mem (items : List (Nat × Migration U)) (db : DB U) (ev : Event)
    (j : Nat) (h : ev ∈ (rollbackLoop items db).1.since db) (hj : ev.idx? = some j) :
    j ∈ items.map Prod.fst := by
  obtain ⟨p, hp, -, k, e, rfl⟩ := rollbackLoop_labels items db ev h
  simp only [Event.idx?, Option.some.injEq] at hj
  exact List.mem_map.2 ⟨p, hp, hj⟩

theorem rollbackLoop_failed_backward (items : List (Nat × Migration U)) (db : DB U)
    (hp : (items.map Prod.fst).Pairwise (· > ·)) (i : Nat) (id : String) (e : Err)
    (h : Event.call i id Call.Rollback (some e) ∈ (rollbackLoop items db).1.since db) :
    (rollbackLoop items db).2 = some (Err.wrap "running rollback" e) ∧
    (rollbackLoop items db).1.tracked id ∧
    (∀ ev ∈ (rollbackLoop items db).1.since db, ∀ j, ev.idx? = some j → i ≤ j) ∧
    (∃ X rb, (i, X) ∈ items ∧ X.ID = id ∧ X.Rollback = some rb ∧ ∃ u, rb u = Except.error e) ∧
    (∀ q ∈ items, i < q.1 → q.2.Rollback ≠ none → ¬ (rollbackLoop items db).1.tracked q.2.ID) := by
  induction items, db using rollbackLoop.induct with
  | case1 db => simp [rollbackLoop, DB.since] at h
  | case2 i0 m rest db hrb ih =>
    simp only [rollbackLoop, hrb] at h ⊢
    simp only [List.map_cons, List.pairwise_cons] at hp
    obtain ⟨a, b, c, ⟨X, rb, hX, hd⟩, d⟩ := ih hp.2 h
    refine ⟨a, b, c, ⟨X, rb, List.mem_cons_of_mem _ hX, hd⟩, ?_⟩
    intro q hq hlt hne
    rcases List.mem_cons.1 hq with rfl | hq
    · exact absurd hrb hne
    · exact d q hq hlt hne
  | case3 i0 m rest db rb hrb db1 h1 ih =>
    have g := DB.Get_inv h1
    simp only [rollbackLoop, hrb, h1] at h ⊢
    rw [DB.since_step g.trace (rollbackLoop_later rest db1).trace] at h ⊢
    simp only [List.map_cons, List.pairwise_cons] at hp
    have h2 : Event.call i id Call.Rollback (some e) ∈ (rollbackLoop rest db1).1.since db1 := by
      simpa using h
    obtain ⟨a, b, c, ⟨X, rb2, hX, hd⟩, d⟩ := ih hp.2 h2
    have hlt : i < i0 := hp.1 i (List.mem_map.2 ⟨_, hX, rfl⟩)
    refine ⟨a, b, ?_, ⟨X, rb2, List.mem_cons_of_mem _ hX, hd⟩, ?_⟩
    · intro ev hev j hj
      rcases List.mem_append.1 hev with hev | hev
      · simp at hev; subst hev; simp [Event.idx?] at hj; omega
      · exact c ev hev j hj
    · intro q hq hlt2 hne hc
      rcases List.mem_cons.1 hq with rfl | hq
      · exact (g.missing rfl).1 ((g.looked_tracked_iff _).1 ((rollbackLoop_tracked rest db1 _).1 hc))
      · exact d q hq hlt2 hne hc
  | case4 i0 m rest db rb hrb db1 h1 db2 err h2 =>
    have g := DB.Get_inv h1
    have r := runRollback_err h2
    simp only [rollbackLoop, hrb, h1, h2] at h ⊢
    simp only [List.map_cons, List.pairwise_cons] at hp
    have htr : db2.tracked m.ID := by
      rw [r.kept_tracked_iff, g.looked_tracked_iff]; exact g.found rfl
    obtain ⟨e0, he0, ht⟩ := r.trace
    have hlast : ∀ q ∈ (i0, m) :: rest, i0 < q.1 → q.2.Rollback ≠ none →
        ¬ db2.tracked q.2.ID := by
      intro q hq hlt _
      rcases List.mem_cons.1 hq with rfl | hq
      · exact absurd hlt (lt_irrefl _)
      · have := hp.1 q.1 (List.mem_map.2 ⟨q, hq, rfl⟩)
        omega
    rcases ht with ht | ⟨f, ht⟩ | ⟨f, hf, ht⟩ | ht <;>
      rw [DB.since_step g.trace ⟨_, ht⟩, DB.since_eq ht] at h ⊢ <;>
      simp [Event.idx?] at h ⊢
    obtain ⟨rfl, rfl, rfl⟩ := h
    rw [g.store] at hf
    refine ⟨he0, htr, le_refl _, ⟨m, Or.inl ⟨rfl, rfl⟩, rfl, rb, hrb, _, hf⟩, ?_, ?_⟩
    · intro hlt
      exact absurd hlt (lt_irrefl _)
    · intro a b hab hlt hne
      exact hlast (a, b) (List.mem_cons_of_mem _ hab) hlt hne
  | case5 i0 m rest db rb hrb db1 h1 db2 h2 ih =>
    have g := DB.Get_inv h1
    have r := runRollback_ok h2
    simp only [rollbackLoop, hrb, h1, h2] at h ⊢
    rw [DB.since_step g.trace ((r.reverted_later.trans (rollbackLoop_later rest db2)).trace),
      DB.since_step r.trace (rollbackLoop_later rest db2).trace] at h ⊢
    simp only [List.map_cons, List.pairwise_cons] at hp
    have h3 : Event.call i id Call.Rollback (some e) ∈ (rollbackLoop rest db2).1.since db2 := by
      simpa using h
    obtain ⟨a, b, c, ⟨X, rb2, hX, hd⟩, d⟩ := ih hp.2 h3
    have hlt : i < i0 := hp.1 i (List.mem_map.2 ⟨_, hX, rfl⟩)
    refine ⟨a, b, ?_, ⟨X, rb2, List.mem_cons_of_mem _ hX, hd⟩, ?_⟩
    · intro ev hev j hj
      simp only [List.mem_append, List.mem_cons, List.mem_singleton, List.not_mem_nil,
        or_false] at hev
      rcases hev with rfl | (rfl | rfl | rfl | rfl) | hev
      · simp [Event.idx?] at hj; omega
      · simp [Event.idx?] at hj; omega
      · simp [Event.idx?] at hj; omega
      · simp [Event.idx?] at hj; omega
      · simp [Event.idx?] at hj; omega
      · exact c ev hev j hj
    · intro q hq hlt2 hne hc
      rcases List.mem_cons.1 hq with rfl | hq
      · exact ((r.reverted_tracked_iff _).1 ((rollbackLoop_tracked rest db2 _).1 hc)).2 rfl
      · exact d q hq hlt2 hne hc
  | case6 i0 m rest db rb hrb db1 err hne h1 =>
    have g := DB.Get_inv h1
    simp only [rollbackLoop, hrb, h1] at h
    rw [DB.since_eq g.trace] at h
    simp at h

theorem enum_reverse_sorted (ms : List (Migration U)) :
    ((ms.enum.reverse).map Prod.fst).Pairwise (· > ·) := by
  rw [List.map_reverse, List.pairwise_reverse]
  exact enum_sorted ms

/-- C8. `Rollback` stops at the first failure of its reverse walk. For every migrator, if
during `Rollback` the backward capability of the migration at position `i`, with id `id`, is
called and returns the error `e`, then: the registry does hold at position `i` a migration
with that id whose backward capability returns `e`; `Rollback` returns `e` wrapped as
`running rollback: e`; the tracking record for `id` still exists after the call; no call was
made for a position before `i`; and no migration at a position after `i` that has a backward
capability has a tracking record after the call. -/
theorem failed_backward_stops_rollback (m : SqlxMigrate U) (i : Nat) (id : String) (e : Err)
    (h : Event.call i id Call.Rollback (some e) ∈ (Rollback m).1.db.since m.db) :
    (∃ X rb, m.migrations[i]? = some X ∧ X.ID = id ∧ X.Rollback = some rb ∧
      ∃ u, rb u = Except.error e) ∧
    (Rollback m).2 = some (Err.wrap "running rollback" e) ∧
    (Rollback m).1.db.tracked id ∧
    (∀ ev ∈ (Rollback m).1.db.since m.db, ∀ j, ev.idx? = some j → i ≤ j) ∧
    (∀ j Y, i < j → m.migrations[j]? = some Y → Y.Rollback ≠ none →
      ¬ (Rollback m).1.db.tracked Y.ID) := by
  rcases Rollback_cases m with ⟨db0, err, hb, hM⟩ | ⟨db0, hb, hM⟩
  · obtain ⟨e0, -, ht⟩ := hb.trace
    rw [hM] at h
    simp [DB.since_eq ht] at h
  · rw [hM] at h ⊢
    simp only at h ⊢
    rw [DB.since_step hb.trace (rollbackLoop_later _ db0).trace] at h ⊢
    have h2 : Event.call i id Call.Rollback (some e) ∈
        (rollbackLoop m.migrations.enum.reverse db0).1.since db0 := by simpa using h
    obtain ⟨a, b, c, ⟨X, rb, hX, hid, hrb, hu⟩, d⟩ :=
      rollbackLoop_failed_backward _ db0 (enum_reverse_sorted _) i id e h2
    refine ⟨⟨X, rb, List.mk_mem_enum_iff_getElem?.1 (List.mem_reverse.1 hX), hid, hrb, hu⟩,
      a, b, ?_, ?_⟩
    · intro ev hev j hj
      rcases List.mem_append.1 hev with hev | hev
      · simp at hev; subst hev; simp [Event.idx?] at hj
      · exact c ev hev j hj
    · intro j Y hij hY hne
      exact d (j, Y) (List.mem_reverse.2 (List.mk_mem_enum_iff_getElem?.2 hY)) hij hne

/-! ## C9 and C4: construction, and the round trip on a single migration -/

/-- C9. `New` validates only the driver. For every handle and every list of migrations,
`New` returns the migrator holding exactly that handle (trace and clock untouched) and that
list when the driver name is `sqlite3` or `mysql`, and the error
`Unsupported driver name: <name>` with no migrator otherwise; ids are not looked at. -/
theorem New_checks_only_the_driver (db : DB U) (migrations : List (Migration U)) :
    New db migrations =
      if db.driverName = "sqlite3" ∨ db.driverName = "mysql" then
        Except.ok { db := db, migrations := migrations }
      else Except.error (Err.other ("Unsupported driver name: " ++ db.driverName)) := by
  unfold New supportedDrivers
  by_cases h1 : db.driverName = "sqlite3"
  · simp [h1, List.lookup]
  · by_cases h2 : db.driverName = "mysql"
    · simp [h2, List.lookup]
    · have b1 : (db.driverName == "sqlite3") = false := beq_eq_false_iff_ne.2 h1
      have b2 : (db.driverName == "mysql") = false := beq_eq_false_iff_ne.2 h2
      simp [h1, h2, b1, b2, List.lookup]

theorem Migrate_single (m : SqlxMigrate U) (A : Migration U) (u : U)
    (hm : m.migrations = [A]) (hf : ∀ n, m.db.clock ≤ n → m.db.fail n = none)
    (hun : ¬ m.db.tracked A.ID) (hu : A.Migrate m.db.store.user = Except.ok u) :
    Migrate m = ({ m with db := { m.db with
        store := { migrations := some (m.db.store.rows ++ [A.ID]), user := u },
        clock := m.db.clock + 5,
        trace := m.db.trace ++ (Event.bootstrap none ::
          Event.call 0 A.ID Call.Get (some Err.ErrNoRows) :: txForward 0 A.ID) } }, none) := by
  have h0 := hf m.db.clock (le_refl _)
  have h1 := hf (m.db.clock + 1) (by omega)
  have h2 := hf (m.db.clock + 1 + 1) (by omega)
  have h3 := hf (m.db.clock + 1 + 1 + 1) (by omega)
  have h4 := hf (m.db.clock + 1 + 1 + 1 + 1) (by omega)
  cases hs : m.db.store.migrations with
  | none =>
    simp [Migrate, createMigrationTable, DB.ExecCreateTable, migrateLoop, hm, List.enum,
      List.enumFrom, DB.Get, runMigration, DB.Beginx, Tx.ExecInsert, Tx.invoke, Tx.Commit,
      DB.fault, DB.record, DB.note, h0, h1, h2, h3, h4, hs, hu, Store.rows, txForward]
  | some rows =>
    have hin : A.ID ∉ rows := by simpa [DB.tracked, Store.rows, hs] using hun
    simp [Migrate, createMigrationTable, DB.ExecCreateTable, migrateLoop, hm, List.enum,
      List.enumFrom, DB.Get, runMigration, DB.Beginx, Tx.ExecInsert, Tx.invoke, Tx.Commit,
      DB.fault, DB.record, DB.note, h0, h1, h2, h3, h4, hs, hu, hin, Store.rows, txForward]

theorem Rollback_single (m : SqlxMigrate U) (A : Migration U) (rb : U → Except Err U) (u : U)
    (hm : m.migrations = [A]) (hrb : A.Rollback = some rb)
    (hf : ∀ n, m.db.clock ≤ n → m.db.fail n = none)
    (htr : m.db.tracked A.ID) (hu : rb m.db.store.user = Except.ok u) :
    Rollback m = ({ m with db := { m.db with
        store := { migrations := some (m.db.store.rows.filter (fun r => r ≠ A.ID)), user := u },
        clock := m.db.clock + 5,
        trace := m.db.trace ++ (Event.bootstrap none ::
          Event.call 0 A.ID Call.Get none :: txBackward 0 A.ID) } }, none) := by
  have h0 := hf m.db.clock (le_refl _)
  have h1 := hf (m.db.clock + 1) (by omega)
  have h2 := hf (m.db.clock + 1 + 1) (by omega)
  have h3 := hf (m.db.clock + 1 + 1 + 1) (by omega)
  have h4 := hf (m.db.clock + 1 + 1 + 1 + 1) (by omega)
  cases hs : m.db.store.migrations with
  | none => simp [DB.tracked, Store.rows, hs] at htr
  | some rows =>
    have hin : A.ID ∈ rows := by simpa [DB.tracked, Store.rows, hs] using htr
    simp [Rollback, createMigrationTable, DB.ExecCreateTable, rollbackLoop, hm, List.enum,
      List.enumFrom, DB.Get, runRollback, DB.Beginx, Tx.ExecDelete, Tx.invoke, Tx.Commit,
      DB.fault, DB.record, DB.note, h0, h1, h2, h3, h4, hs, hu, hin, hrb, Store.rows,
      txBackward]


theorem filter_ne_append_self (rows : List String) (id : String) (h : id ∉ rows) :
    (rows ++ [id]).filter (fun r => r ≠ id) = rows := by
  rw [List.filter_append]
  have h1 : rows.filter (fun r => r ≠ id) = rows := by
    rw [List.filter_eq_self]
    intro a ha
    have hne : a ≠ id := fun hc => h (hc ▸ ha)
    simpa using hne
  rw [h1]
  simp

/-- C4, amended. Round trip. For a migrator whose registry is `[A]`, where `A` has the
backward capability `rb`, the id of `A` is untracked, no database call fails, and the
capabilities succeed where they run (the forward one takes the initial schema to `u1`, the
backward one takes `u1` to `u2`, the forward one takes `u2` to `u3`): `Migrate`, `Rollback`
and `Migrate` again all return `nil`; the tracking record of `A` exists after the first
`Migrate`, not after `Rollback`, and again after the last `Migrate`; each `Migrate` invokes
the forward capability exactly once and `Rollback` the backward capability exactly once; the
schema is `u1`, then `u2`, then `u3`; and if the backward capability undid the forward one
(`u2` is the initial schema), the store after the last `Migrate` equals the store after the
first. -/
theorem apply_rollback_apply (m : SqlxMigrate U) (A : Migration U) (rb : U → Except Err U)
    (u1 u2 u3 : U) (hm : m.migrations = [A]) (hrb : A.Rollback = some rb)
    (hf : ∀ n, m.db.clock ≤ n → m.db.fail n = none)
    (hu1 : A.Migrate m.db.store.user = Except.ok u1) (hu2 : rb u1 = Except.ok u2)
    (hu3 : A.Migrate u2 = Except.ok u3) (hun : ¬ m.db.tracked A.ID) :
    ((Migrate m).2 = none ∧ (Rollback (Migrate m).1).2 = none ∧
      (Migrate (Rollback (Migrate m).1).1).2 = none) ∧
    ((Migrate m).1.db.tracked A.ID ∧ ¬ (Rollback (Migrate m).1).1.db.tracked A.ID ∧
      (Migrate (Rollback (Migrate m).1).1).1.db.tracked A.ID) ∧
    (((Migrate m).1.db.since m.db).filterMap Event.forward? = [0] ∧
      ((Rollback (Migrate m).1).1.db.since (Migrate m).1.db).filterMap Event.backward? = [0] ∧
      ((Migrate (Rollback (Migrate m).1).1).1.db.since
        (Rollback (Migrate m).1).1.db).filterMap Event.forward? = [0]) ∧
    ((Migrate m).1.db.store.user = u1 ∧ (Rollback (Migrate m).1).1.db.store.user = u2 ∧
      (Migrate (Rollback (Migrate m).1).1).1.db.store.user = u3) ∧
    (u2 = m.db.store.user →
      (Migrate (Rollback (Migrate m).1).1).1.db.store = (Migrate m).1.db.store) := by
  have hin : A.ID ∉ m.db.store.rows := hun
  have e1 := Migrate_single m A u1 hm hf hun hu1
  have t1 : (Migrate m).1.db.tracked A.ID := by
    rw [e1]; simp [DB.tracked, Store.rows]
  have e2 := Rollback_single (Migrate m).1 A rb u2 (by rw [e1]; exact hm) hrb
    (by rw [e1]; intro n hn; exact hf n (by simp at hn; omega)) t1 (by rw [e1]; exact hu2)
  have r2 : (Rollback (Migrate m).1).1.db.store.rows = m.db.store.rows := by
    rw [e2, e1]
    simp only [Store.rows]
    exact filter_ne_append_self _ _ hin
  have t2 : ¬ (Rollback (Migrate m).1).1.db.tracked A.ID := by
    unfold DB.tracked; rw [r2]; exact hin
  have e3 := Migrate_single (Rollback (Migrate m).1).1 A u3 (by rw [e2, e1]; exact hm)
    (by rw [e2, e1]; intro n hn; exact hf n (by simp at hn; omega)) t2
    (by rw [e2]; exact hu3)
  have t3 : (Migrate (Rollback (Migrate m).1).1).1.db.tracked A.ID := by
    rw [e3]; simp [DB.tracked, Store.rows]
  refine ⟨⟨by rw [e1], by rw [e2], by rw [e3]⟩, ⟨t1, t2, t3⟩, ⟨?_, ?_, ?_⟩,
    ⟨by rw [e1], by rw [e2], by rw [e3]⟩, ?_⟩
  · have ht : (Migrate m).1.db.trace = m.db.trace ++ (Event.bootstrap none ::
        Event.call 0 A.ID Call.Get (some Err.ErrNoRows) :: txForward 0 A.ID) := by rw [e1]
    rw [DB.since_eq ht]
    simp [txForward, Event.forward?, List.filterMap_cons]
  · have ht : (Rollback (Migrate m).1).1.db.trace = (Migrate m).1.db.trace ++
        (Event.bootstrap none :: Event.call 0 A.ID Call.Get none :: txBackward 0 A.ID) := by
      rw [e2]
    rw [DB.since_eq ht]
    simp [txBackward, Event.backward?, List.filterMap_cons]
  · have ht : (Migrate (Rollback (Migrate m).1).1).1.db.trace =
        (Rollback (Migrate m).1).1.db.trace ++ (Event.bootstrap none ::
        Event.call 0 A.ID Call.Get (some Err.ErrNoRows) :: txForward 0 A.ID) := by rw [e3]
    rw [DB.since_eq ht]
    simp [txForward, Event.forward?, List.filterMap_cons]
  · intro h21
    have h31 : u3 = u1 := by
      rw [h21, hu1] at hu3
      exact (Except.ok.inj hu3).symm
    rw [e3, r2, h31, e1]

/-! ## The theorems at concrete registries -/

/-- The hypothesis of `failed_forward_is_atomic` (C1) holds for `brokenForwardSetup`, where
the theorem gives the wrapped error and no tracking record. -/
theorem failed_forward_is_atomic_witness :
    Event.call 0 "1" Call.Migrate (some (Err.other "syntax error")) ∈
      (Migrate brokenForwardSetup).1.db.since brokenForwardSetup.db ∧
    (Migrate brokenForwardSetup).2 =
      some (Err.wrap "running migration" (Err.other "syntax error")) ∧
    ¬ (Migrate brokenForwardSetup).1.db.tracked "1" :=
  ⟨by decide,
    (failed_forward_is_atomic brokenForwardSetup 0 "1" (Err.other "syntax error")
      (by decide)).2.1,
    (failed_forward_is_atomic brokenForwardSetup 0 "1" (Err.other "syntax error")
      (by decide)).2.2.1⟩

/-- The hypothesis of `tracked_is_skipped` (C2) holds in the scenario of the test
`existing migrations`: `1` is tracked, the registry is `[1, 2]`. -/
theorem tracked_is_skipped_witness :
    existingMigrations.db.tracked "1" ∧
    ∀ i k e, Event.call i "1" k e ∈
      (Migrate existingMigrations).1.db.since existingMigrations.db → k = Call.Get :=
  ⟨by decide, (tracked_is_skipped existingMigrations "1" (by decide)).1⟩

/-- C3 as stated fails: with a forward step that fails the first call returns an error,
and with a database that fails during the second call the second call returns an error. -/
theorem Migrate_twice_counterexample :
    ¬ ((Migrate brokenForwardSetup).2 = none ∧
       (Migrate (Migrate brokenForwardSetup).1).2 = none) ∧
    ¬ ((Migrate flakySetup).2 = none ∧ (Migrate (Migrate flakySetup).1).2 = none) :=
  ⟨by decide, by decide⟩

/-- The hypothesis of `Migrate_twice` (C3, amended) holds in the scenario of the test
`rollback`. -/
theorem Migrate_twice_witness :
    (Migrate rollbackTest).2 = none ∧
    (Migrate (Migrate rollbackTest).1).1.db.store = (Migrate rollbackTest).1.db.store ∧
    (Migrate (Migrate rollbackTest).1).2 = none :=
  ⟨by decide, (Migrate_twice rollbackTest (by decide)).2.1,
    (Migrate_twice rollbackTest (by decide)).2.2 (fun _ _ => rfl)⟩

/-- C4 as stated fails: `1` is untracked and both steps of `createCourses` succeed where
they would run, but the database refuses the first call and `Migrate` returns an error. -/
theorem apply_rollback_apply_counterexample :
    closedSetup.migrations = [createCourses] ∧
    ¬ closedSetup.db.tracked "1" ∧
    createCourses.Migrate [] = Except.ok ["courses"] ∧
    rollbackFunc1 ["courses"] = Except.ok [] ∧
    (Migrate closedSetup).2 =
      some (Err.wrap "creating migrations table" (Err.other "database is closed")) :=
  ⟨rfl, by decide, rfl, rfl, by decide⟩

/-- The hypotheses of `apply_rollback_apply` (C4, amended) hold in the scenario of the test
`rollback`. -/
theorem apply_rollback_apply_witness :
    (Migrate (Rollback (Migrate rollbackTest).1).1).1.db.store =
      (Migrate rollbackTest).1.db.store :=
  (apply_rollback_apply rollbackTest createCourses rollbackFunc1 ["courses"] [] ["courses"]
    rfl rfl (fun _ _ => rfl) rfl rfl rfl (by decide)).2.2.2.2 rfl

/-- C5 as stated fails: `createCoursesForGood` has no backward step and its id `1` is tracked,
but `createCourses`, registered under the same id, is rolled back and takes the record away. -/
theorem Rollback_skips_irreversible_counterexample :
    sharedIdSetup.migrations[0]? = some createCoursesForGood ∧
    createCoursesForGood.Rollback = none ∧
    sharedIdSetup.db.tracked createCoursesForGood.ID ∧
    (Rollback sharedIdSetup).2 = none ∧
    ¬ (Rollback sharedIdSetup).1.db.tracked createCoursesForGood.ID :=
  ⟨rfl, rfl, by decide, by decide, by decide⟩

/-- The hypotheses of `Rollback_skips_irreversible` (C5, amended) hold for the registry of the
test `existing migrations`, with both migrations tracked. -/
theorem Rollback_skips_irreversible_witness :
    (∀ ev ∈ (Rollback bothApplied).1.db.since bothApplied.db, ev.idx? ≠ some 0) ∧
    ((Rollback bothApplied).1.db.tracked "1" ↔ bothApplied.db.tracked "1") :=
  ⟨(Rollback_skips_irreversible bothApplied 0 createCoursesForGood rfl rfl).1,
    (Rollback_skips_irreversible bothApplied 0 createCoursesForGood rfl rfl).2.2
      (fun Y hY _ => by
        have hY2 : Y = createCoursesForGood ∨ Y = createUsers := by
          simpa [bothApplied] using hY
        rcases hY2 with rfl | rfl
        · rfl
        · rfl)⟩

/-- C6 as stated fails: `Migrate` returns an error at position `0`, and the migration at
position `1`, tracked before the call, still has its tracking record; no position `k`
separates tracked from untracked migrations. -/
theorem Migrate_overall_result_counterexample :
    (Migrate laterTrackedSetup).2 =
      some (Err.wrap "running migration" (Err.other "syntax error")) ∧
    ¬ ∃ k : Nat,
        (∀ (j : Nat) (X : Migration (List String)), j < k →
          laterTrackedSetup.migrations[j]? = some X →
          (Migrate laterTrackedSetup).1.db.tracked X.ID) ∧
        (∀ (j : Nat) (X : Migration (List String)), k ≤ j →
          laterTrackedSetup.migrations[j]? = some X →
          ¬ (Migrate laterTrackedSetup).1.db.tracked X.ID) := by
  refine ⟨by decide, ?_⟩
  rintro ⟨k, h1, h2⟩
  rcases Nat.lt_or_ge 0 k with hk | hk
  · exact absurd (h1 0 brokenForward hk rfl) (by decide)
  · exact absurd (h2 1 createUsers (by omega) rfl) (by decide)

/-- The hypothesis of `failed_backward_stops_rollback` (C8) holds for `brokenBackwardSetup`. -/
theorem failed_backward_stops_rollback_witness :
    Event.call 0 "1" Call.Rollback (some (Err.other "syntax error")) ∈
      (Rollback brokenBackwardSetup).1.db.since brokenBackwardSetup.db ∧
    (Rollback brokenBackwardSetup).2 =
      some (Err.wrap "running rollback" (Err.other "syntax error")) ∧
    (Rollback brokenBackwardSetup).1.db.tracked "1" :=
  ⟨by decide,
    (failed_backward_stops_rollback brokenBackwardSetup 0 "1" (Err.other "syntax error")
      (by decide)).2.1,
    (failed_backward_stops_rollback brokenBackwardSetup 0 "1" (Err.other "syntax error")
      (by decide)).2.2.1⟩

/-- The hypotheses of `duplicate_ids_run_once` (C10) hold for `duplicateSetup`, built from
the `CREATE TABLE` steps of the tests, where the duplicates of id `1` are not adjacent. -/
theorem duplicate_ids_run_once_witness :
    (Migrate duplicateSetup).2 = none ∧
    Event.call 0 "1" Call.Migrate none ∈ (Migrate duplicateSetup).1.db.since duplicateSetup.db ∧
    (∀ n e, Event.call n "1" Call.Migrate e ∈
      (Migrate duplicateSetup).1.db.since duplicateSetup.db → n = 0) ∧
    Event.call 2 "1" Call.Get none ∈ (Migrate duplicateSetup).1.db.since duplicateSetup.db :=
  duplicate_ids_run_once duplicateSetup 0 2 createCoursesForGood createCoursesForGood
    (fun _ _ => rfl)
    (fun n id e hev => by
      have ht : (Migrate duplicateSetup).1.db.since duplicateSetup.db =
          Event.bootstrap none :: Event.call 0 "1" Call.Get (some Err.ErrNoRows) ::
            (txForward 0 "1" ++ Event.call 1 "2" Call.Get (some Err.ErrNoRows) ::
              (txForward 1 "2" ++ [Event.call 2 "1" Call.Get none])) := by decide
      rw [ht] at hev
      simp only [txForward, List.mem_cons, List.mem_append, List.mem_singleton,
        List.not_mem_nil, Event.call.injEq, reduceCtorEq, and_false, false_and, false_or,
        or_false, and_true, true_and] at hev
      rcases hev with ⟨-, -, h⟩ | ⟨-, -, h⟩
      · exact h
      · exact h)
    rfl rfl (by decide) rfl (fun n _ _ _ => Nat.zero_le n) (by decide)

end migrate
